import Mathlib

/-!
Verification development for the cashflow core of `cashflow.py`:
the two character-level line parsers (category file and journal file),
the category registry with its hierarchy pass, transaction loading, and
the bottom-up aggregation fold over category levels 4, 3, 2.

Lines of the input files are modelled as `List Char` (including any
terminating newline).  Currency amounts, which the Python source keeps
in floating point, are modelled as exact rationals `ℚ`; all other data
is carried exactly as in the source.
-/

/-- Value of a decimal digit character, mirroring Python `int(char)`. -/
def charVal (c : Char) : Nat := c.toNat - 48

/-- Membership test mirroring Python `char in "123456789"`. -/
def isDigit19 (c : Char) : Bool :=
  decide (c ∈ ['1', '2', '3', '4', '5', '6', '7', '8', '9'])

/-- Numeric value of a string of decimal digits, mirroring Python `int(s)`. -/
def charsToNat (l : List Char) : Nat :=
  l.foldl (fun a c => a * 10 + charVal c) 0

/-- Strip trailing whitespace, mirroring Python `str.rstrip()`. -/
def rstrip (l : List Char) : List Char :=
  (l.reverse.dropWhile (fun c => c.isWhitespace)).reverse

/-- Decimal digit characters of a natural number (fuel-based so that it
reduces definitionally). -/
def natCharsAux : Nat → Nat → List Char → List Char
  | 0, _, acc => acc
  | fuel + 1, n, acc =>
    if n < 10 then Nat.digitChar n :: acc
    else natCharsAux fuel (n / 10) (Nat.digitChar (n % 10) :: acc)

/-- Decimal digit characters of a natural number. -/
def natChars (n : Nat) : List Char := natCharsAux (n + 1) n []

/-- Zero-pad a decimal rendering to a given width, mirroring
Python format specifiers such as 02d and 04d. -/
def padNat (width n : Nat) : List Char :=
  let ds := natChars n
  List.replicate (width - ds.length) '0' ++ ds

/-! ## Category file line parser (`parse_cat_file_line`) -/

/-- States of the category-file line parser, mirroring `class CS(Enum)`. -/
inductive CS
  | START
  | LEVEL1
  | LEVEL234A
  | LEVEL234B
  | START_DESCR
  | END_DESCR
  | END_COMMENT
deriving DecidableEq, Repr

/-- Result of parsing one category file line: error message, skip
(blank or comment line), or the tuple (cat_code, descr, comment, level). -/
inductive CatRes
  | error (msg : String)
  | skip
  | ok (cat_code descr comment : List Char) (level : Nat)
deriving DecidableEq, Repr

/-- Whether a category parse result is an error. -/
def CatRes.isError : CatRes → Bool
  | .error _ => true
  | _ => false

/-- Whether a category parse result is a successful code line. -/
def CatRes.isOk : CatRes → Bool
  | .ok _ _ _ _ => true
  | _ => false

/-- Live variables of the category-file parser loop.  `code_acc`,
`descr_acc` and `comment_acc` hold the characters the Python code
recovers by slicing the line at `start_idx`, `descr_start` and
`comment_start`. -/
structure CatSt where
  ps : CS
  code_acc : List Char
  level : Nat
  digit_count : Nat
  cat_code : List Char
  descr_acc : List Char
  comment_acc : List Char
deriving Repr

/-- The character-by-character loop of `parse_cat_file_line`,
including the end-of-line handling after the loop (lines 393-396). -/
def catGo (s : CatSt) : List Char → CatRes
  | [] =>
    if s.ps = CS.START then .skip
    else .error "Error, invalid category file format"
  | c :: rest =>
    match s.ps with
    | CS.START =>
      if c = ' ' then catGo s rest
      else if c = '#' ∨ c = '\n' then .skip
      else if isDigit19 c then
        catGo { s with ps := .LEVEL1, code_acc := [c], level := 1 } rest
      else .error "Error, invalid category file format"
    | CS.LEVEL1 =>
      if c = '.' then
        catGo { s with ps := .LEVEL234A, level := 2, code_acc := s.code_acc ++ [c] } rest
      else if c = ' ' then
        catGo { s with ps := .START_DESCR, cat_code := s.code_acc } rest
      else .error "Error, invalid category file format"
    | CS.LEVEL234A =>
      if isDigit19 c then
        catGo { s with ps := .LEVEL234B, digit_count := 1, code_acc := s.code_acc ++ [c] } rest
      else .error "Error, invalid category file format"
    | CS.LEVEL234B =>
      if c.isDigit then
        if s.digit_count + 1 ≤ 2 then
          catGo { s with digit_count := s.digit_count + 1, code_acc := s.code_acc ++ [c] } rest
        else .error "Error, invalid category code, too many digits"
      else if c = '.' then
        if s.level + 1 ≤ 4 then
          catGo { s with ps := .LEVEL234A, level := s.level + 1, code_acc := s.code_acc ++ [c] } rest
        else .error "Error, invalid category code, level nested too deeply"
      else if c = ' ' then
        catGo { s with ps := .START_DESCR, cat_code := s.code_acc } rest
      else .error "Error, invalid category file format"
    | CS.START_DESCR =>
      if c = ' ' then catGo s rest
      else if c = '#' ∨ c = '\n' then
        .error "Error, invalid category file format, missing description"
      else catGo { s with ps := .END_DESCR, descr_acc := [c] } rest
    | CS.END_DESCR =>
      if c = '#' ∨ c = '\n' then
        if c = '\n' then .ok s.cat_code (rstrip s.descr_acc) [] s.level
        else catGo { s with ps := .END_COMMENT, comment_acc := [c] } rest
      else catGo { s with descr_acc := s.descr_acc ++ [c] } rest
    | CS.END_COMMENT =>
      if c = '\n' then .ok s.cat_code (rstrip s.descr_acc) (rstrip s.comment_acc) s.level
      else catGo { s with comment_acc := s.comment_acc ++ [c] } rest

/-- Initial state of the category-file parser. -/
def catInit : CatSt := ⟨CS.START, [], 0, 0, [], [], []⟩

/-- Parse one line of the category file, mirroring `parse_cat_file_line`. -/
def parse_cat_file_line (line : List Char) : CatRes := catGo catInit line

example : parse_cat_file_line "2.1.2 Regular maintenance # tools\n".toList =
    .ok "2.1.2".toList "Regular maintenance".toList "# tools".toList 3 := by decide

example : parse_cat_file_line "   # just a comment\n".toList = .skip := by decide

example : parse_cat_file_line "12 Foo\n".toList =
    .error "Error, invalid category file format" := by decide

example : parse_cat_file_line "1.234 X\n".toList =
    .error "Error, invalid category code, too many digits" := by decide

example : parse_cat_file_line "1.1.1.1.1 X\n".toList =
    .error "Error, invalid category code, level nested too deeply" := by decide

example : parse_cat_file_line "   ".toList = .skip := by decide

example : parse_cat_file_line "1 Foo".toList =
    .error "Error, invalid category file format" := by decide

/-! ## Journal file line parser (`parse_journal_file_line`) -/

/-- States of the journal-file line parser, mirroring `class TJ(Enum)`. -/
inductive TJ
  | START
  | MONTH
  | DATE
  | START_DESCR
  | END_DESCR
  | START_AMT
  | DOLLARS
  | CENTS
  | START_TYPE
  | END_TYPE
  | START_CAT
  | END_CAT
deriving DecidableEq, Repr

/-- Table of the maximum day for each month (index 1 to 12), assuming
29 days for February, mirroring `MAX_DATE`. -/
def MAX_DATE : List Nat := [0, 31, 29, 31, 30, 31, 30, 31, 31, 30, 31, 30, 31]

/-- Leap-year test mirroring `calendar.isleap`. -/
def isleap (y : Nat) : Bool := y % 4 == 0 && (y % 100 != 0 || y % 400 == 0)

/-- Result of parsing one journal file line: error message, skip
(blank or comment line), or the tuple
(jdate, jdescr, jamt, jtype, jcat_code). -/
inductive JRes
  | error (msg : String)
  | skip
  | ok (jdate jdescr : List Char) (jamt : ℚ) (jtype jcat_code : List Char)
deriving DecidableEq, Repr

/-- Whether a journal parse result is an error. -/
def JRes.isError : JRes → Bool
  | .error _ => true
  | _ => false

/-- Whether a journal parse result is a successful transaction line. -/
def JRes.isOk : JRes → Bool
  | .ok _ _ _ _ _ => true
  | _ => false

/-- Live variables of the journal-file parser loop.  The accumulator
lists hold the characters the Python code recovers by slicing the line. -/
structure JSt where
  ps : TJ
  month_value : Nat
  date_value : Nat
  digit_ctr : Nat
  jdate : List Char
  descr_acc : List Char
  jdescr : List Char
  sign_flag : Bool
  dollars : ℚ
  cents : ℚ
  jamt : ℚ
  type_acc : List Char
  jtype : List Char
  cat_acc : List Char
deriving Repr

/-- The character-by-character loop of `parse_journal_file_line`,
including the end-of-line handling after the loop (lines 675-678). -/
def jGo (year : Nat) (s : JSt) : List Char → JRes
  | [] =>
    if s.ps = TJ.START then .skip
    else .error "Error, invalid journal file format"
  | c :: rest =>
    match s.ps with
    | TJ.START =>
      if c = ' ' then jGo year s rest
      else if c = '#' ∨ c = '\n' then .skip
      else if c.isDigit then
        jGo year { s with ps := .MONTH, month_value := charVal c, digit_ctr := 1 } rest
      else .error "Error, invalid journal file format"
    | TJ.MONTH =>
      if c.isDigit then
        if s.digit_ctr + 1 ≤ 2 then
          jGo year { s with month_value := s.month_value * 10 + charVal c,
                            digit_ctr := s.digit_ctr + 1 } rest
        else .error "Error, invalid month in journal file"
      else if c = '/' then
        if 1 ≤ s.month_value ∧ s.month_value ≤ 12 then
          jGo year { s with digit_ctr := 0, date_value := 0, ps := .DATE } rest
        else .error "Error, invalid month in journal file"
      else .error "Error, invalid month in journal file"
    | TJ.DATE =>
      if c.isDigit then
        if s.digit_ctr + 1 ≤ 2 then
          jGo year { s with date_value := s.date_value * 10 + charVal c,
                            digit_ctr := s.digit_ctr + 1 } rest
        else .error "Error, invalid date in journal file"
      else if c = ',' then
        if 1 ≤ s.date_value ∧ s.date_value ≤ MAX_DATE.getD s.month_value 0 then
          if s.month_value = 2 ∧ s.date_value = 29 ∧ ¬(isleap year = true) then
            .error "Error, invalid leap year date in journal file"
          else
            jGo year { s with
              jdate := padNat 2 s.month_value ++ '/' :: padNat 2 s.date_value ++
                       '/' :: padNat 4 year,
              ps := .START_DESCR } rest
        else .error "Error, invalid date in journal file"
      else .error "Error, invalid date in journal file"
    | TJ.START_DESCR =>
      if c = ' ' then jGo year s rest
      else if ¬(c = ',' ∨ c = '\n') then
        jGo year { s with ps := .END_DESCR, descr_acc := [c] } rest
      else .error "Error, invalid description in journal file"
    | TJ.END_DESCR =>
      if c = ',' then
        jGo year { s with jdescr := rstrip s.descr_acc, sign_flag := false,
                          ps := .START_AMT } rest
      else jGo year { s with descr_acc := s.descr_acc ++ [c] } rest
    | TJ.START_AMT =>
      if c = ' ' then jGo year s rest
      else if c = '-' then
        jGo year { s with sign_flag := true, digit_ctr := 0, dollars := 0,
                          ps := .DOLLARS } rest
      else if c.isDigit then
        jGo year { s with digit_ctr := 1, dollars := (charVal c : ℚ),
                          ps := .DOLLARS } rest
      else .error "Error, invalid amount in journal file"
    | TJ.DOLLARS =>
      if c.isDigit then
        jGo year { s with digit_ctr := s.digit_ctr + 1,
                          dollars := s.dollars * 10 + (charVal c : ℚ) } rest
      else if c = '.' then
        if s.digit_ctr ≠ 0 then
          jGo year { s with digit_ctr := 0, cents := 0, ps := .CENTS } rest
        else .error "Error, invalid amount in journal file"
      else .error "Error, invalid amount in journal file"
    | TJ.CENTS =>
      if c.isDigit then
        jGo year { s with digit_ctr := s.digit_ctr + 1,
                          cents := s.cents * 10 + (charVal c : ℚ) } rest
      else if c = ',' then
        if s.digit_ctr = 2 then
          jGo year { s with
            jamt := (if s.sign_flag then -(s.dollars + s.cents / 100)
                     else s.dollars + s.cents / 100),
            ps := .START_TYPE } rest
        else .error "Error, invalid amount in journal file"
      else .error "Error, invalid amount in journal file"
    | TJ.START_TYPE =>
      if c = ' ' then jGo year s rest
      else if ¬(c = ',' ∨ c = '\n') then
        jGo year { s with ps := .END_TYPE, type_acc := [c] } rest
      else .error "Error, invalid transaction type in journal file"
    | TJ.END_TYPE =>
      if c = ',' then
        jGo year { s with jtype := rstrip s.type_acc, ps := .START_CAT } rest
      else jGo year { s with type_acc := s.type_acc ++ [c] } rest
    | TJ.START_CAT =>
      if c = ' ' then jGo year s rest
      else if c.isDigit then
        jGo year { s with ps := .END_CAT, cat_acc := [c] } rest
      else .error "Error, invalid category code in journal file"
    | TJ.END_CAT =>
      if c.isDigit ∨ c = '.' then
        jGo year { s with cat_acc := s.cat_acc ++ [c] } rest
      else if c = ' ' ∨ c = '\n' then
        .ok s.jdate s.jdescr s.jamt s.jtype s.cat_acc
      else .error "Error, invalid category code in journal file"

/-- Initial state of the journal-file parser. -/
def jInit : JSt := ⟨TJ.START, 0, 0, 0, [], [], [], false, 0, 0, 0, [], [], []⟩

/-- Parse one line of the journal file, mirroring `parse_journal_file_line`. -/
def parse_journal_file_line (line : List Char) (year : Nat) : JRes :=
  jGo year jInit line

example : parse_journal_file_line "3/9, Rappahannock Electric (Union chk), 292.03, xfr, 2.2.1\n".toList 2015 =
    .ok "03/09/2015".toList "Rappahannock Electric (Union chk)".toList (29203 / 100 : ℚ)
      "xfr".toList "2.2.1".toList := by with_unfolding_all rfl

example : parse_journal_file_line "2/29, D, 1.00, t, 1\n".toList 2016 =
    .ok "02/29/2016".toList "D".toList 1 "t".toList "1".toList := by with_unfolding_all rfl

example : parse_journal_file_line "2/29, D, 1.00, t, 1\n".toList 2015 =
    .error "Error, invalid leap year date in journal file" := by decide

example : parse_journal_file_line "3/9, D, -0.25, t, 1\n".toList 2015 =
    .ok "03/09/2015".toList "D".toList (-(1 / 4) : ℚ) "t".toList "1".toList := by with_unfolding_all rfl

example : parse_journal_file_line "3/9, D, 1.5, t, 1\n".toList 2015 =
    .error "Error, invalid amount in journal file" := by decide

example : parse_journal_file_line "  \n".toList 2015 = .skip := by decide

example : parse_journal_file_line "  ".toList 2015 = .skip := by decide

example : parse_journal_file_line "3/9, D, 1.00, t, 1".toList 2015 =
    .error "Error, invalid journal file format" := by decide

/-! ## Category registry (`CatCode`, `read_and_parse_cat_file`) -/

/-- Category code object, mirroring `class CatCode`.  `parent` and
`children` hold indices into the category list; `journal` holds indices
into the journal list.  The 12 monthly accumulators are modelled as
functions on `Fin 12` (the Python code updates the 12 list entries
independently). -/
structure CatCode where
  cat_str : List Char
  descr : List Char
  comment : List Char
  level : Nat
  line_nbr : Nat
  parent : Option Nat
  children : List Nat
  total : ℚ
  nested_total : ℚ
  monthly : Fin 12 → ℚ
  nested_monthly : Fin 12 → ℚ
  journal : List Nat
  longest : Nat

/-- Construction of a fresh category object, mirroring `CatCode.__init__`. -/
def CatCode.init (cat_code descr comment : List Char) (level line_num : Nat) : CatCode :=
  { cat_str := cat_code
    descr := descr
    comment := comment
    level := level
    line_nbr := line_num
    parent := none
    children := []
    total := 0
    nested_total := 0
    monthly := fun _ => 0
    nested_monthly := fun _ => 0
    journal := []
    longest := 0 }

instance : Inhabited CatCode := ⟨CatCode.init [] [] [] 0 0⟩

/-- Entry of the category list at an index (out-of-range indices yield
the default object; the source never indexes out of range). -/
def catAt (cats : List CatCode) (i : Nat) : CatCode := cats.getD i default

/-- Index of a code string in the category list, mirroring a lookup of
`cat_dict` (which maps each code to its unique index in `cat_list`). -/
def lookupIdx : List CatCode → List Char → Option Nat
  | [], _ => none
  | c :: cs, code =>
    if c.cat_str = code then some 0
    else (lookupIdx cs code).map (· + 1)

/-- The line loop of `read_and_parse_cat_file`: parse every line,
reject duplicate codes, append a fresh `CatCode` per code line, and
reject an empty category file at the end. -/
def readCatLines : List (List Char) → Nat → List CatCode → Except String (List CatCode)
  | [], _, acc =>
    if acc.length = 0 then .error "Error, empty category file" else .ok acc
  | l :: ls, line_nbr, acc =>
    match parse_cat_file_line l with
    | .error msg => .error msg
    | .skip => readCatLines ls (line_nbr + 1) acc
    | .ok code descr comment level =>
      if (lookupIdx acc code).isSome then
        .error "Error, duplicate category code found"
      else
        readCatLines ls (line_nbr + 1) (acc ++ [CatCode.init code descr comment level line_nbr])

/-- Read and parse the whole category file, mirroring
`read_and_parse_cat_file`. -/
def read_and_parse_cat_file (lines : List (List Char)) : Except String (List CatCode) :=
  readCatLines lines 1 []

/-! ## Hierarchy pass (`prc_cat_file_hierarchy`) -/

/-- Parent code of a category code string: everything before the last
dot.  Mirrors `full_code[0:full_code.rfind(".")]`, including the
behaviour of `rfind` returning -1 when no dot is present (the slice
then drops the last character). -/
def parentCodeOf (code : List Char) : List Char :=
  if code.contains '.' then ((code.reverse.dropWhile (fun c => ¬(c = '.'))).drop 1).reverse
  else code.dropLast

/-- Append child index `i` to the children list of the node at `pidx`,
mirroring `cat_list[parent_idx].children.append(idx)`. -/
def appendChild (cats : List CatCode) (pidx i : Nat) : List CatCode :=
  match cats.get? pidx with
  | none => cats
  | some pc => cats.set pidx { pc with children := pc.children ++ [i] }

/-- Record `pidx` as the parent of the node at `i`, mirroring
`cat_list[idx].parent = parent_idx`. -/
def setParent (cats : List CatCode) (i pidx : Nat) : List CatCode :=
  match cats.get? i with
  | none => cats
  | some cc1 => cats.set i { cc1 with parent := some pidx }

/-- One step of the hierarchy pass for index `i`: resolve the parent of
a node of level greater than 1, or fail when the parent code is not in
the registry. -/
def hierStep (cats : List CatCode) (i : Nat) : Except String (List CatCode) :=
  match cats.get? i with
  | none => .ok cats
  | some cc =>
    if cc.level > 1 then
      match lookupIdx cats (parentCodeOf cc.cat_str) with
      | none => .error "Error, parent category missing or appears after child category"
      | some pidx => .ok (setParent (appendChild cats pidx i) i pidx)
    else .ok cats

/-- Fold of `hierStep` over a list of indices. -/
def hierGo : List Nat → List CatCode → Except String (List CatCode)
  | [], cats => .ok cats
  | i :: is, cats =>
    match hierStep cats i with
    | .error msg => .error msg
    | .ok cats2 => hierGo is cats2

/-- The hierarchy pass over the fully loaded registry, mirroring
`prc_cat_file_hierarchy` (which runs after the whole file is read). -/
def prc_cat_file_hierarchy (cats : List CatCode) : Except String (List CatCode) :=
  hierGo (List.range cats.length) cats

/-- Category file reading followed by the hierarchy pass, as invoked in
`main`. -/
def loadCatFile (lines : List (List Char)) : Except String (List CatCode) :=
  match read_and_parse_cat_file lines with
  | .error msg => .error msg
  | .ok cats => prc_cat_file_hierarchy cats

/-! ## Journal loading (`read_and_parse_journal_file`) -/

/-- Journal transaction object, mirroring `class Journal`. -/
structure Journal where
  date : List Char
  descr : List Char
  amt : ℚ
  type_str : List Char
  cat_code : List Char
  cat_idx : Nat
  line_nbr : Nat

/-- Whether an `Except` result is a success. -/
def isOkE {ε α : Type _} : Except ε α → Bool
  | .ok _ => true
  | .error _ => false

/-- Update of the owning category's direct accumulators for one
transaction (`journal`, `total`, `monthly`, `longest`), mirroring the
body of the per-line update in `read_and_parse_journal_file`. -/
def journalUpdate (cats : List CatCode) (cat_idx : Nat) (jamt : ℚ)
    (jdate jdescr : List Char) (js_len : Nat) : List CatCode :=
  match cats.get? cat_idx with
  | none => cats
  | some cc =>
    cats.set cat_idx
      { cc with
        journal := cc.journal ++ [js_len]
        total := cc.total + jamt
        monthly :=
          if h : charsToNat (jdate.take 2) - 1 < 12 then
            Function.update cc.monthly ⟨charsToNat (jdate.take 2) - 1, h⟩
              (cc.monthly ⟨charsToNat (jdate.take 2) - 1, h⟩ + jamt)
          else cc.monthly
        longest := if jdescr.length > cc.longest then jdescr.length else cc.longest }

/-- The line loop of `read_and_parse_journal_file`: parse every line,
resolve the category code, append the `Journal` object, and update the
owning category's direct accumulators (`journal`, `total`, `monthly`,
`longest`).  An empty journal file is rejected at the end. -/
def readJournalLines (year : Nat) :
    List (List Char) → Nat → List CatCode → List Journal →
    Except String (List CatCode × List Journal)
  | [], _, cats, js =>
    if js.length = 0 then .error "Error, empty journal file" else .ok (cats, js)
  | l :: ls, line_nbr, cats, js =>
    match parse_journal_file_line l year with
    | .error msg => .error msg
    | .skip => readJournalLines year ls (line_nbr + 1) cats js
    | .ok jdate jdescr jamt jtype jcat =>
      match lookupIdx cats jcat with
      | none => .error "Error, undefined category code found"
      | some cat_idx =>
        readJournalLines year ls (line_nbr + 1)
          (journalUpdate cats cat_idx jamt jdate jdescr js.length)
          (js ++ [⟨jdate, jdescr, jamt, jtype, jcat, cat_idx, line_nbr⟩])

/-- Read and parse the whole journal file against a loaded registry,
mirroring `read_and_parse_journal_file`. -/
def read_and_parse_journal_file (lines : List (List Char)) (year : Nat)
    (cats : List CatCode) : Except String (List CatCode × List Journal) :=
  readJournalLines year lines 1 cats []

/-! ## Aggregation (`generate_cashflow_report`, lines 778-788) -/

/-- One iteration of the inner aggregation loop: if the node at `cidx`
has the level being folded, add its direct plus nested totals into its
parent's nested totals (year-to-date and all 12 months). -/
def aggIdx (lvl : Nat) (cats : List CatCode) (cidx : Nat) : List CatCode :=
  match cats.get? cidx with
  | none => cats
  | some cc =>
    if cc.level = lvl then
      match cc.parent with
      | none => cats
      | some pidx =>
        match cats.get? pidx with
        | none => cats
        | some pc =>
          cats.set pidx
            { pc with
              nested_total := pc.nested_total + (cc.total + cc.nested_total)
              nested_monthly :=
                fun m => pc.nested_monthly m + (cc.monthly m + cc.nested_monthly m) }
    else cats

/-- The inner loop over the whole category list for one level. -/
def aggLevel (lvl : Nat) (cats : List CatCode) : List CatCode :=
  (List.range cats.length).foldl (aggIdx lvl) cats

/-- The aggregation pass: fold levels 4, 3, 2 in that order, mirroring
`for lvl in range(4,1,-1)`. -/
def aggregate (cats : List CatCode) : List CatCode :=
  aggLevel 2 (aggLevel 3 (aggLevel 4 cats))

/-! ## Descendants and well-formedness -/

/-- Fuel-bounded reachability along parent pointers: whether following
at least one and at most `fuel` parent steps from `j` reaches `i`. -/
def pstar (par : Nat → Option Nat) : Nat → Nat → Nat → Bool
  | 0, _, _ => false
  | fuel + 1, j, i =>
    match par j with
    | none => false
    | some p => p == i || pstar par fuel p i

/-- Parent pointer of the node at an index. -/
def parOf (cats : List CatCode) (j : Nat) : Option Nat := (catAt cats j).parent

/-- Node `j` is a strict descendant of node `i` (fuel 4 suffices since
levels are bounded by 4, so parent chains have at most 3 steps). -/
def strictDesc (cats : List CatCode) (j i : Nat) : Bool :=
  pstar (parOf cats) 4 j i

/-- Iterated parent pointers: the ancestor exactly `steps` levels up. -/
def parIter (par : Nat → Option Nat) : Nat → Nat → Option Nat
  | 0, j => some j
  | steps + 1, j =>
    match par j with
    | none => none
    | some p => parIter par steps p

/-- Structural well-formedness of one node of the registry after the
hierarchy pass: level between 1 and 4, no parent at level 1, and at
deeper levels a parent index that is in range and one level up. -/
def wfNode (cats : List CatCode) (i : Nat) : Bool :=
  let c := catAt cats i
  decide (1 ≤ c.level) && decide (c.level ≤ 4) &&
    (if c.level = 1 then c.parent == none
     else
       match c.parent with
       | none => false
       | some p => decide (p < cats.length) && ((catAt cats p).level + 1 == c.level))

/-- Structural well-formedness of the whole registry. -/
def WFCats (cats : List CatCode) : Prop :=
  ∀ i < cats.length, wfNode cats i = true

/-- All nested accumulators of the registry are zero (as they are from
node creation until the aggregation pass runs). -/
def ZeroNested (cats : List CatCode) : Prop :=
  ∀ i < cats.length,
    (catAt cats i).nested_total = 0 ∧ ∀ m, (catAt cats i).nested_monthly m = 0

instance (cats : List CatCode) : Decidable (WFCats cats) := by
  unfold WFCats; infer_instance

instance (cats : List CatCode) : Decidable (ZeroNested cats) := by
  unfold ZeroNested; infer_instance

/-- The end-to-end scenario registry: categories 1, 1.1, 2, 2.1 with
transactions 1000.00 on 1.1 and 800.00 on 2.1, both in March. -/
def scenarioCats : List CatCode :=
  match loadCatFile
      ["1 Income\n".toList, "1.1 Salary\n".toList,
       "2 Expenses\n".toList, "2.1 Housing\n".toList] with
  | .error _ => []
  | .ok cats =>
    match read_and_parse_journal_file
        ["3/9, Paycheck, 1000.00, dep, 1.1\n".toList,
         "3/10, Rent, 800.00, chk, 2.1\n".toList] 2015 cats with
    | .error _ => []
    | .ok (cats2, _) => cats2

example : (scenarioCats.map (fun c => c.parent)) = [none, some 0, none, some 2] := by
  with_unfolding_all rfl

example : WFCats scenarioCats := of_decide_eq_true (by with_unfolding_all rfl)

example : ZeroNested scenarioCats := of_decide_eq_true (by with_unfolding_all rfl)

example : (catAt (aggregate scenarioCats) 0).nested_total = 1000 := by
  with_unfolding_all rfl

example : (catAt (aggregate scenarioCats) 2).nested_total = 800 := by
  with_unfolding_all rfl

example : (catAt (aggregate scenarioCats) 0).nested_monthly ⟨2, by decide⟩ = 1000 := by
  with_unfolding_all rfl

example : (catAt (aggregate scenarioCats) 0).nested_monthly ⟨0, by decide⟩ = 0 := by
  with_unfolding_all rfl

example : (catAt scenarioCats 1).total = 1000 := by with_unfolding_all rfl

example : strictDesc scenarioCats 1 0 = true := by with_unfolding_all rfl

example : strictDesc scenarioCats 3 0 = false := by with_unfolding_all rfl

/-! ## Basic parser lemmas -/

/-- Leading spaces are skipped by the category parser. -/
lemma catGo_spaces (sp : List Char) :
    (∀ c ∈ sp, c = ' ') → ∀ rest : List Char,
      catGo catInit (sp ++ rest) = catGo catInit rest := by
  induction sp with
  | nil => intro _ rest; rfl
  | cons c sp ih =>
    intro h rest
    have hc : c = ' ' := h c (by simp)
    subst hc
    have hstep : catGo catInit (' ' :: (sp ++ rest)) = catGo catInit (sp ++ rest) := by
      simp [catGo, catInit]
    rw [List.cons_append, hstep]
    exact ih (fun x hx => h x (by simp [hx])) rest

/-- Leading spaces are skipped by the journal parser. -/
lemma jGo_spaces (year : Nat) (sp : List Char) :
    (∀ c ∈ sp, c = ' ') → ∀ rest : List Char,
      jGo year jInit (sp ++ rest) = jGo year jInit rest := by
  induction sp with
  | nil => intro _ rest; rfl
  | cons c sp ih =>
    intro h rest
    have hc : c = ' ' := h c (by simp)
    subst hc
    have hstep : jGo year jInit (' ' :: (sp ++ rest)) = jGo year jInit (sp ++ rest) := by
      simp [jGo, jInit]
    rw [List.cons_append, hstep]
    exact ih (fun x hx => h x (by simp [hx])) rest

/-! ## Claim C4: transitions out of the Level1 state -/

/-- C4: in the category parser's Level1 state, reached after leading
spaces and a first digit 1 to 9, the only characters that continue the
parse are a dot (which begins a level-2 segment, level becoming 2) and
a space (which closes the code and moves to description search); any
other character, a second digit included, yields the format error, so
a line such as "12 Foo" is rejected. -/
theorem C4_level1_transitions (sp : List Char) (hsp : ∀ x ∈ sp, x = ' ')
    (d c : Char) (rest : List Char) (hd : isDigit19 d = true)
    (hdot : c ≠ '.') (hspace : c ≠ ' ') :
    parse_cat_file_line (sp ++ d :: c :: rest) =
        .error "Error, invalid category file format" ∧
    parse_cat_file_line (sp ++ d :: '.' :: rest) =
        catGo ⟨CS.LEVEL234A, [d, '.'], 2, 0, [], [], []⟩ rest ∧
    parse_cat_file_line (sp ++ d :: ' ' :: rest) =
        catGo ⟨CS.START_DESCR, [d], 1, 0, [d], [], []⟩ rest := by
  have h1 : ¬d = ' ' := fun h => by subst h; simp [isDigit19] at hd
  have h2 : ¬d = '#' := fun h => by subst h; simp [isDigit19] at hd
  have h3 : ¬d = '\n' := fun h => by subst h; simp [isDigit19] at hd
  have step1 : ∀ l, catGo catInit (d :: l) = catGo ⟨CS.LEVEL1, [d], 1, 0, [], [], []⟩ l := by
    intro l
    simp [catGo, catInit, h1, h2, h3, hd]
  refine ⟨?_, ?_, ?_⟩
  · rw [show parse_cat_file_line (sp ++ d :: c :: rest) = catGo catInit (d :: c :: rest) from
      catGo_spaces sp hsp _, step1]
    simp [catGo, hdot, hspace]
  · rw [show parse_cat_file_line (sp ++ d :: '.' :: rest) = catGo catInit (d :: '.' :: rest) from
      catGo_spaces sp hsp _, step1]
    simp [catGo]
  · rw [show parse_cat_file_line (sp ++ d :: ' ' :: rest) = catGo catInit (d :: ' ' :: rest) from
      catGo_spaces sp hsp _, step1]
    simp [catGo]

/-- Witness for C4 on the concrete line "12 Foo" (newline included). -/
theorem C4_level1_transitions_witness :
    parse_cat_file_line "12 Foo\n".toList = .error "Error, invalid category file format" :=
  (C4_level1_transitions [] (by simp) '1' '2' " Foo\n".toList (by decide)
    (by decide) (by decide)).1

/-! ## Claim C7: end of input handling -/

/-- C7: in both parsers, a line consisting only of spaces with no
terminating newline is treated as skip (the parser stays in its START
state, and end of input in START yields skip), while end of input in
any other state, a well-formed line merely lacking its newline
included, is a format error. -/
theorem C7_end_of_input (year : Nat) (line : List Char) :
    ((∀ c ∈ line, c = ' ') →
      parse_cat_file_line line = .skip ∧ parse_journal_file_line line year = .skip) ∧
    (∀ s : CatSt, s.ps ≠ CS.START → (catGo s []).isError = true) ∧
    (∀ s : JSt, s.ps ≠ TJ.START → (jGo year s []).isError = true) := by
  refine ⟨fun h => ⟨?_, ?_⟩, fun s hs => ?_, fun s hs => ?_⟩
  · have hsp := catGo_spaces line h []
    rw [List.append_nil] at hsp
    rw [parse_cat_file_line, hsp]
    rfl
  · have hsp := jGo_spaces year line h []
    rw [List.append_nil] at hsp
    rw [parse_journal_file_line, hsp]
    rfl
  · simp [catGo, hs, CatRes.isError]
  · simp [jGo, hs, JRes.isError]

/-- Witness for C7: an all-space line without newline is skipped by
both parsers, and end of input in the description state (as for the
line "1 Foo" with no newline) is an error. -/
theorem C7_end_of_input_witness :
    (parse_cat_file_line "   ".toList = .skip ∧
      parse_journal_file_line "   ".toList 2015 = .skip) ∧
    (catGo ⟨CS.END_DESCR, [], 0, 0, [], [], []⟩ []).isError = true :=
  ⟨(C7_end_of_input 2015 "   ".toList).1 (by decide),
   (C7_end_of_input 2015 "   ".toList).2.1 _ (by decide)⟩

/-! ## List update lemmas -/

/-- Entry of a list after a `set`, through the `catAt` accessor. -/
lemma catAt_set (cats : List CatCode) (k j : Nat) (a : CatCode) :
    catAt (cats.set k a) j = if k = j ∧ k < cats.length then a else catAt cats j := by
  induction cats generalizing k j with
  | nil => simp [catAt]
  | cons x xs ih =>
    cases k with
    | zero =>
      cases j with
      | zero => simp [catAt]
      | succ j => simp [catAt, List.getD_cons_succ]
    | succ k =>
      cases j with
      | zero => simp [catAt]
      | succ j =>
        have := ih k j
        simp only [List.set_cons_succ, catAt, List.getD_cons_succ, List.length_cons] at *
        rw [this]
        by_cases h : k = j ∧ k < xs.length
        · rw [if_pos h, if_pos ⟨by omega, by omega⟩]
        · rw [if_neg h, if_neg (by omega)]

/-- `lookupIdx` only inspects the `cat_str` fields, so a `set` that
preserves the code string of its target leaves every lookup unchanged. -/
lemma lookupIdx_set (cats : List CatCode) (k : Nat) (a : CatCode) (code : List Char)
    (h : a.cat_str = (catAt cats k).cat_str) :
    lookupIdx (cats.set k a) code = lookupIdx cats code := by
  induction cats generalizing k with
  | nil => simp
  | cons x xs ih =>
    cases k with
    | zero =>
      simp only [catAt, List.getD_cons_zero] at h
      simp [lookupIdx, h]
    | succ k =>
      simp only [catAt, List.getD_cons_succ] at h
      simp [lookupIdx, ih k h]

/-- Indexing within bounds through `get?` agrees with `catAt`. -/
lemma get?_eq_catAt : ∀ (cats : List CatCode) (i : Nat), i < cats.length →
    cats.get? i = some (catAt cats i)
  | _ :: _, 0, _ => rfl
  | _ :: xs, i + 1, h =>
    by simpa [catAt, List.getD_cons_succ] using get?_eq_catAt xs i (by simpa using h)

/-- Out-of-range indexing through `get?` yields `none`. -/
lemma get?_eq_none_of_ge : ∀ (cats : List CatCode) (i : Nat), cats.length ≤ i →
    cats.get? i = none := by
  intro cats i h
  exact List.get?_eq_none.mpr h

/-- Updating one entry while keeping its code string and level
preserves the registry skeleton used by the hierarchy pass. -/
lemma set_skeleton (cs : List CatCode) (k : Nat) (a : CatCode)
    (hstr : a.cat_str = (catAt cs k).cat_str) (hlvl : a.level = (catAt cs k).level) :
    (cs.set k a).length = cs.length ∧
    (∀ j, (catAt (cs.set k a) j).cat_str = (catAt cs j).cat_str ∧
          (catAt (cs.set k a) j).level = (catAt cs j).level) ∧
    (∀ code, lookupIdx (cs.set k a) code = lookupIdx cs code) := by
  refine ⟨by simp, fun j => ?_, fun code => lookupIdx_set cs k a code hstr⟩
  rw [catAt_set]
  by_cases hkj : k = j ∧ k < cs.length
  · rw [if_pos hkj, ← hkj.1]; exact ⟨hstr, hlvl⟩
  · rw [if_neg hkj]; exact ⟨rfl, rfl⟩

/-- `appendChild` preserves the registry skeleton. -/
lemma appendChild_skeleton (cats : List CatCode) (pidx i : Nat) :
    (appendChild cats pidx i).length = cats.length ∧
    (∀ j, (catAt (appendChild cats pidx i) j).cat_str = (catAt cats j).cat_str ∧
          (catAt (appendChild cats pidx i) j).level = (catAt cats j).level) ∧
    (∀ code, lookupIdx (appendChild cats pidx i) code = lookupIdx cats code) := by
  unfold appendChild
  rcases hgp : cats.get? pidx with _ | pc
  · exact ⟨rfl, fun j => ⟨rfl, rfl⟩, fun code => rfl⟩
  · have hpc : pc = catAt cats pidx := by
      have hlt : pidx < cats.length := by
        by_contra hni
        rw [get?_eq_none_of_ge cats pidx (by omega)] at hgp
        cases hgp
      have := get?_eq_catAt cats pidx hlt
      rw [this] at hgp
      exact (Option.some_inj.mp hgp).symm
    exact set_skeleton cats pidx _ (by rw [hpc]) (by rw [hpc])

/-- `setParent` preserves the registry skeleton. -/
lemma setParent_skeleton (cats : List CatCode) (i pidx : Nat) :
    (setParent cats i pidx).length = cats.length ∧
    (∀ j, (catAt (setParent cats i pidx) j).cat_str = (catAt cats j).cat_str ∧
          (catAt (setParent cats i pidx) j).level = (catAt cats j).level) ∧
    (∀ code, lookupIdx (setParent cats i pidx) code = lookupIdx cats code) := by
  unfold setParent
  rcases hgi : cats.get? i with _ | cc1
  · exact ⟨rfl, fun j => ⟨rfl, rfl⟩, fun code => rfl⟩
  · have hcc : cc1 = catAt cats i := by
      have hlt : i < cats.length := by
        by_contra hni
        rw [get?_eq_none_of_ge cats i (by omega)] at hgi
        cases hgi
      have := get?_eq_catAt cats i hlt
      rw [this] at hgi
      exact (Option.some_inj.mp hgi).symm
    exact set_skeleton cats i _ (by rw [hcc]) (by rw [hcc])

/-- A successful hierarchy step preserves the length, the code string
and level of every entry, and hence every registry lookup. -/
lemma hierStep_ok_skeleton (cats : List CatCode) (i : Nat) (cats2 : List CatCode)
    (h : hierStep cats i = .ok cats2) :
    cats2.length = cats.length ∧
    (∀ j, (catAt cats2 j).cat_str = (catAt cats j).cat_str ∧
          (catAt cats2 j).level = (catAt cats j).level) ∧
    (∀ code, lookupIdx cats2 code = lookupIdx cats code) := by
  unfold hierStep at h
  split at h
  · cases h
    exact ⟨rfl, fun j => ⟨rfl, rfl⟩, fun code => rfl⟩
  · split at h
    · split at h
      · cases h
      · cases h
        have h1 := appendChild_skeleton cats ‹_› i
        have h2 := setParent_skeleton (appendChild cats ‹_› i) i ‹_›
        refine ⟨by rw [h2.1, h1.1], fun j => ?_, fun code => by rw [h2.2.2, h1.2.2]⟩
        exact ⟨by rw [(h2.2.1 j).1, (h1.2.1 j).1], by rw [(h2.2.1 j).2, (h1.2.1 j).2]⟩
    · cases h
      exact ⟨rfl, fun j => ⟨rfl, rfl⟩, fun code => rfl⟩

/-- When a hierarchy step fails it fails with the missing-parent error,
and its index names an in-range node of level greater than 1 whose
parent code is absent from the registry. -/
lemma hierStep_error_char (cats : List CatCode) (i : Nat) (msg : String)
    (h : hierStep cats i = .error msg) :
    msg = "Error, parent category missing or appears after child category" ∧
    i < cats.length ∧ 1 < (catAt cats i).level ∧
    lookupIdx cats (parentCodeOf (catAt cats i).cat_str) = none := by
  unfold hierStep at h
  split at h
  · cases h
  · rename_i cc hget
    split at h
    · rename_i hlv
      split at h
      · rename_i hlook
        cases h
        have hlt : i < cats.length := by
          by_contra hni
          rw [get?_eq_none_of_ge cats i (by omega)] at hget
          cases hget
        have hcc : cc = catAt cats i := by
          rw [get?_eq_catAt cats i hlt] at hget
          exact (Option.some_inj.mp hget).symm
        exact ⟨rfl, hlt, by rw [← hcc]; exact hlv, by rw [← hcc]; exact hlook⟩
      · cases h
    · cases h

/-- When a hierarchy step succeeds on an in-range node of level greater
than 1, its parent code was found in the registry. -/
lemma hierStep_ok_cond (cats : List CatCode) (i : Nat) (cats2 : List CatCode)
    (h : hierStep cats i = .ok cats2) (hlen : i < cats.length)
    (hlvl : 1 < (catAt cats i).level) :
    (lookupIdx cats (parentCodeOf (catAt cats i).cat_str)).isSome = true := by
  unfold hierStep at h
  split at h
  · rename_i hget
    rw [get?_eq_catAt cats i hlen] at hget
    cases hget
  · rename_i cc hget
    have hcc : cc = catAt cats i := by
      rw [get?_eq_catAt cats i hlen] at hget
      exact (Option.some_inj.mp hget).symm
    split at h
    · split at h
      · cases h
      · rename_i pidx hlook
        rw [← hcc, hlook]
        rfl
    · rename_i hlv
      rw [← hcc] at hlvl
      omega

/-- The hierarchy fold succeeds iff every processed in-range index of
level greater than 1 has its parent code in the registry. -/
lemma hierGo_ok_iff (L : List Nat) (cats : List CatCode) :
    isOkE (hierGo L cats) = true ↔
      ∀ i ∈ L, i < cats.length → 1 < (catAt cats i).level →
        (lookupIdx cats (parentCodeOf (catAt cats i).cat_str)).isSome = true := by
  induction L generalizing cats with
  | nil => simp [hierGo, isOkE]
  | cons i L ih =>
    rcases hstep : hierStep cats i with msg | cats2
    · simp only [hierGo, hstep]
      constructor
      · intro hfalse; cases hfalse
      · intro hall
        exfalso
        obtain ⟨_, hlt, hlvl, hnone⟩ := hierStep_error_char cats i msg hstep
        have := hall i (by simp) hlt hlvl
        rw [hnone] at this
        cases this
    · have hskel := hierStep_ok_skeleton cats i cats2 hstep
      have hcond : ∀ i', i' < cats2.length → 1 < (catAt cats2 i').level →
          ((lookupIdx cats2 (parentCodeOf (catAt cats2 i').cat_str)).isSome = true ↔
           (lookupIdx cats (parentCodeOf (catAt cats i').cat_str)).isSome = true) := by
        intro i' _ _
        rw [hskel.2.2, (hskel.2.1 i').1]
      simp only [hierGo, hstep]
      rw [ih cats2]
      constructor
      · intro hall i' hi' hlt hlvl
        rcases List.mem_cons.mp hi' with rfl | hmem
        · exact hierStep_ok_cond cats i' cats2 hstep hlt hlvl
        · have hlt2 : i' < cats2.length := by rw [hskel.1]; exact hlt
          have hlvl2 : 1 < (catAt cats2 i').level := by rw [(hskel.2.1 i').2]; exact hlvl
          exact (hcond i' hlt2 hlvl2).mp (hall i' hmem hlt2 hlvl2)
      · intro hall i' hmem hlt2 hlvl2
        have hlt : i' < cats.length := by rw [← hskel.1]; exact hlt2
        have hlvl : 1 < (catAt cats i').level := by rw [← (hskel.2.1 i').2]; exact hlvl2
        exact (hcond i' hlt2 hlvl2).mpr (hall i' (List.mem_cons_of_mem _ hmem) hlt hlvl)

/-- A failing hierarchy fold fails with the missing-parent message. -/
lemma hierGo_error_msg (L : List Nat) (cats : List CatCode) (msg : String)
    (h : hierGo L cats = .error msg) :
    msg = "Error, parent category missing or appears after child category" := by
  induction L generalizing cats with
  | nil => cases h
  | cons i L ih =>
    rcases hstep : hierStep cats i with msg' | cats2
    · simp only [hierGo, hstep] at h
      cases h
      exact (hierStep_error_char cats i msg hstep).1
    · simp only [hierGo, hstep] at h
      exact ih cats2 h

/-! ## Claim C2: hierarchy pass and parent availability (amended) -/

/-- C2 amended: the hierarchy pass fails, with the missing-parent
error, exactly when some category of level greater than 1 has a parent
code absent from the registry.  Because the pass runs only after the
whole category file is read, a parent appearing later in the file than
its child is found in the registry and accepted. -/
theorem C2_missing_parent_characterization (cats : List CatCode) :
    (isOkE (prc_cat_file_hierarchy cats) = true ↔
      ∀ i < cats.length, 1 < (catAt cats i).level →
        (lookupIdx cats (parentCodeOf (catAt cats i).cat_str)).isSome = true) ∧
    (∀ msg, prc_cat_file_hierarchy cats = .error msg →
      msg = "Error, parent category missing or appears after child category") := by
  constructor
  · rw [prc_cat_file_hierarchy, hierGo_ok_iff]
    constructor
    · intro hall i hlt hlvl
      exact hall i (List.mem_range.mpr hlt) hlt hlvl
    · intro hall i hmem hlt hlvl
      exact hall i hlt hlvl
  · intro msg h
    exact hierGo_error_msg _ cats msg h

/-- The category file of the C2 scenario, with child 3.2.6 appearing
before its parent 3.2. -/
def outOfOrderLines : List (List Char) :=
  ["3 Root\n".toList, "3.2.6 Child\n".toList, "3.2 Mid\n".toList]

/-- C2 counterexample: a category file in which child 3.2.6 appears
before its parent 3.2 is accepted by the hierarchy pass (no
MissingParentError), and the parent links are resolved; the claim that
such a file fails is false on the code, which checks the fully loaded
registry. -/
theorem C2_counterexample_out_of_order :
    isOkE (loadCatFile outOfOrderLines) = true ∧
    (match loadCatFile outOfOrderLines with
     | .ok cats => cats.map (fun c => c.parent)
     | .error _ => []) = [none, some 2, some 0] := by
  constructor
  · with_unfolding_all rfl
  · with_unfolding_all rfl

/-- The scenario registry before the hierarchy pass. -/
def scenarioPreCats : List CatCode :=
  match read_and_parse_cat_file
      ["1 Income\n".toList, "1.1 Salary\n".toList,
       "2 Expenses\n".toList, "2.1 Housing\n".toList] with
  | .error _ => []
  | .ok cats => cats

/-- Witness for the amended C2 on a concrete registry whose parent
codes are all present. -/
theorem C2_missing_parent_characterization_witness :
    isOkE (prc_cat_file_hierarchy scenarioPreCats) = true :=
  (C2_missing_parent_characterization scenarioPreCats).1.mpr
    (of_decide_eq_true (by with_unfolding_all rfl))

/-! ## Segment structure of category codes -/

/-- A valid first segment: exactly one digit 1 to 9. -/
def seg1OK : List Char → Bool
  | [d] => isDigit19 d
  | _ => false

/-- A valid deeper segment: one or two digits, the first 1 to 9. -/
def segDeepOK : List Char → Bool
  | [d] => isDigit19 d
  | [d, e] => isDigit19 d && e.isDigit
  | _ => false

/-- A valid nonempty segment list for a category code. -/
def segsOK : List (List Char) → Bool
  | [] => false
  | s :: ss => seg1OK s && ss.all segDeepOK

/-- Join segments with dots. -/
def joinDots : List (List Char) → List Char
  | [] => []
  | [s] => s
  | s :: ss => s ++ '.' :: joinDots ss

/-- Split a character list at its dots (the dot-separated segments). -/
def splitDots : List Char → List (List Char)
  | [] => [[]]
  | c :: cs =>
    match splitDots cs with
    | [] => [[]]
    | s :: ss => if c = '.' then [] :: s :: ss else (c :: s) :: ss

lemma splitDots_ne_nil (cs : List Char) : splitDots cs ≠ [] := by
  cases cs with
  | nil => simp [splitDots]
  | cons c cs =>
    simp only [splitDots]
    rcases h : splitDots cs with _ | ⟨s, ss⟩
    · simp
    · by_cases hc : c = '.' <;> simp [hc]

lemma splitDots_append_nodot (s rest : List Char) (h : '.' ∉ s) :
    splitDots (s ++ rest) =
      (s ++ (splitDots rest).headI) :: (splitDots rest).tail := by
  induction s with
  | nil =>
    rcases hr : splitDots rest with _ | ⟨r, rs⟩
    · exact absurd hr (splitDots_ne_nil rest)
    · simp [hr]
  | cons c s ih =>
    have hc : ¬c = '.' := fun hcc => h (by simp [hcc])
    have ih2 := ih (fun hmem => h (by simp [hmem]))
    calc splitDots (c :: s ++ rest)
        = (match splitDots (s ++ rest) with
           | [] => [[]]
           | s' :: ss => if c = '.' then [] :: s' :: ss else (c :: s') :: ss) := rfl
      _ = (c :: (s ++ (splitDots rest).headI)) :: (splitDots rest).tail := by
          rw [ih2]; simp [hc]
      _ = ((c :: s) ++ (splitDots rest).headI) :: (splitDots rest).tail := by simp

lemma joinDots_append (segs : List (List Char)) (last : List Char) (h : segs ≠ []) :
    joinDots (segs ++ [last]) = joinDots segs ++ '.' :: last := by
  induction segs with
  | nil => exact absurd rfl h
  | cons s ss ih =>
    cases ss with
    | nil => rfl
    | cons s2 ss2 =>
      have hrec := ih (by simp)
      calc joinDots ((s :: s2 :: ss2) ++ [last])
          = s ++ '.' :: joinDots ((s2 :: ss2) ++ [last]) := rfl
        _ = s ++ '.' :: (joinDots (s2 :: ss2) ++ '.' :: last) := by rw [hrec]
        _ = (s ++ '.' :: joinDots (s2 :: ss2)) ++ '.' :: last := by simp
        _ = joinDots (s :: s2 :: ss2) ++ '.' :: last := rfl

lemma segsOK_append (segs : List (List Char)) (last : List Char)
    (h1 : segsOK segs = true) (h2 : segDeepOK last = true) :
    segsOK (segs ++ [last]) = true := by
  cases segs with
  | nil => cases h1
  | cons s ss =>
    simp only [segsOK, Bool.and_eq_true, List.all_eq_true] at h1
    simp only [List.cons_append, segsOK, Bool.and_eq_true, List.all_eq_true]
    refine ⟨h1.1, fun x hx => ?_⟩
    rcases List.mem_append.mp hx with hx | hx
    · exact h1.2 x hx
    · simp only [List.mem_singleton] at hx
      subst hx
      exact h2

lemma joinDots_snoc_char (segs : List (List Char)) (last : List Char) (c : Char) :
    joinDots (segs ++ [last]) ++ [c] = joinDots (segs ++ [last ++ [c]]) := by
  cases segs with
  | nil => simp [joinDots]
  | cons s ss =>
    rw [joinDots_append _ _ (by simp), joinDots_append _ _ (by simp)]
    simp

lemma isDigit19_facts (d : Char) (h : isDigit19 d = true) :
    d ≠ '.' ∧ d ≠ ' ' ∧ d ≠ '#' ∧ d ≠ '\n' ∧ d.isDigit = true := by
  have hmem : d ∈ ['1', '2', '3', '4', '5', '6', '7', '8', '9'] := of_decide_eq_true h
  fin_cases hmem <;> exact ⟨by decide, by decide, by decide, by decide, by decide⟩

lemma isDigit_ne_dot (d : Char) (h : d.isDigit = true) : d ≠ '.' := by
  intro hc
  subst hc
  exact absurd h (by decide)

lemma seg1OK_nodot (x : List Char) (hs : seg1OK x = true) : '.' ∉ x := by
  rcases x with _ | ⟨d, _ | ⟨e, tl⟩⟩
  · simp
  · intro hmem
    simp only [List.mem_singleton] at hmem
    exact (isDigit19_facts d hs).1 hmem.symm
  · cases hs

lemma segDeepOK_nodot (x : List Char) (hs : segDeepOK x = true) : '.' ∉ x := by
  rcases x with _ | ⟨d, _ | ⟨e, _ | ⟨f, tl⟩⟩⟩
  · simp
  · intro hmem
    simp only [List.mem_singleton] at hmem
    exact (isDigit19_facts d hs).1 hmem.symm
  · simp only [segDeepOK, Bool.and_eq_true] at hs
    intro hmem
    rcases List.mem_cons.mp hmem with hd | hmem
    · exact (isDigit19_facts d hs.1).1 hd.symm
    · simp only [List.mem_singleton] at hmem
      exact isDigit_ne_dot e hs.2 hmem.symm
  · cases hs

lemma segsOK_nodot (segs : List (List Char)) (h : segsOK segs = true) :
    ∀ s ∈ segs, '.' ∉ s := by
  cases segs with
  | nil => cases h
  | cons s ss =>
    simp only [segsOK, Bool.and_eq_true, List.all_eq_true] at h
    intro x hx
    rcases List.mem_cons.mp hx with rfl | hx
    · exact seg1OK_nodot x h.1
    · exact segDeepOK_nodot x (h.2 x hx)

lemma splitDots_joinDots (segs : List (List Char)) (hne : segs ≠ [])
    (h : ∀ s ∈ segs, '.' ∉ s) : splitDots (joinDots segs) = segs := by
  induction segs with
  | nil => exact absurd rfl hne
  | cons s ss ih =>
    cases ss with
    | nil =>
      have hs : '.' ∉ s := h s (by simp)
      have hstep := splitDots_append_nodot s [] hs
      simpa [joinDots, splitDots] using hstep
    | cons s2 ss2 =>
      have hs : '.' ∉ s := h s (by simp)
      have hrec := ih (by simp) (fun x hx => h x (by simp [hx]))
      have hstep : splitDots (s ++ '.' :: joinDots (s2 :: ss2)) =
          (s ++ (splitDots ('.' :: joinDots (s2 :: ss2))).headI) ::
            (splitDots ('.' :: joinDots (s2 :: ss2))).tail :=
        splitDots_append_nodot s _ hs
      have hdot : splitDots ('.' :: joinDots (s2 :: ss2)) =
          [] :: splitDots (joinDots (s2 :: ss2)) := by
        simp only [splitDots]
        rcases hsp : splitDots (joinDots (s2 :: ss2)) with _ | ⟨r, rs⟩
        · exact absurd hsp (splitDots_ne_nil _)
        · simp
      show splitDots (s ++ '.' :: joinDots (s2 :: ss2)) = s :: s2 :: ss2
      rw [hstep, hdot, hrec]
      simp

lemma segsOK_ne_nil (segs : List (List Char)) (h : segsOK segs = true) : segs ≠ [] := by
  cases segs with
  | nil => cases h
  | cons s ss => simp

lemma segsOK_append_parts (segs : List (List Char)) (last : List Char)
    (hne : segs ≠ []) (h : segsOK (segs ++ [last]) = true) :
    segsOK segs = true ∧ segDeepOK last = true := by
  cases segs with
  | nil => exact absurd rfl hne
  | cons s ss =>
    simp only [List.cons_append, segsOK, Bool.and_eq_true, List.all_eq_true] at h
    refine ⟨?_, h.2 last (List.mem_append.mpr (Or.inr (by simp)))⟩
    simp only [segsOK, Bool.and_eq_true, List.all_eq_true]
    exact ⟨h.1, fun x hx => h.2 x (List.mem_append.mpr (Or.inl hx))⟩

lemma segDeep_len1 (last : List Char) (hlen : last.length = 1)
    (h : segDeepOK last = true) : ∃ d, last = [d] ∧ isDigit19 d = true := by
  rcases last with _ | ⟨d, _ | ⟨e, tl⟩⟩
  · cases hlen
  · exact ⟨d, rfl, h⟩
  · simp at hlen

/-! ## Claim C3: shape of accepted category codes -/

/-- Invariant on a parser state whose code fields are finalized: the
stored code splits into valid segments matching the stored level. -/
def codeFinal (s : CatSt) : Prop :=
  ∃ segs, s.cat_code = joinDots segs ∧ segsOK segs = true ∧
    segs.length = s.level ∧ 1 ≤ s.level ∧ s.level ≤ 4

/-- Invariant carried by the category parser across characters. -/
def stInv (s : CatSt) : Prop :=
  match s.ps with
  | CS.START => True
  | CS.LEVEL1 => ∃ d, isDigit19 d = true ∧ s.code_acc = [d] ∧ s.level = 1
  | CS.LEVEL234A => ∃ segs, s.code_acc = joinDots segs ++ ['.'] ∧ segsOK segs = true ∧
      segs.length + 1 = s.level ∧ 2 ≤ s.level ∧ s.level ≤ 4
  | CS.LEVEL234B => ∃ segs last, s.code_acc = joinDots (segs ++ [last]) ∧
      segsOK (segs ++ [last]) = true ∧ (segs ++ [last]).length = s.level ∧
      2 ≤ s.level ∧ s.level ≤ 4 ∧ last.length = s.digit_count ∧
      1 ≤ s.digit_count ∧ s.digit_count ≤ 2
  | CS.START_DESCR => codeFinal s
  | CS.END_DESCR => codeFinal s
  | CS.END_COMMENT => codeFinal s

/-- Any accepted run of the category parser from a state satisfying the
invariant returns a code that decomposes into valid segments, one per
level, with the level between 1 and 4. -/
lemma catGo_ok_shape : ∀ (line : List Char) (s : CatSt), stInv s →
    ∀ code descr comment lvl, catGo s line = .ok code descr comment lvl →
    ∃ segs, code = joinDots segs ∧ segsOK segs = true ∧ segs.length = lvl ∧
      1 ≤ lvl ∧ lvl ≤ 4 := by
  intro line
  induction line with
  | nil =>
    intro s hs code descr comment lvl h
    unfold catGo at h
    split at h <;> cases h
  | cons c rest ih =>
    intro s hs code descr comment lvl h
    obtain ⟨ps, code_acc, level, digit_count, cat_code, descr_acc, comment_acc⟩ := s
    cases ps
    case START =>
      simp only [catGo] at h
      split at h
      · refine ih _ ?_ _ _ _ _ h
        show True
        trivial
      · split at h
        · cases h
        · split at h
          · rename_i hdig
            refine ih _ ?_ _ _ _ _ h
            show ∃ d, isDigit19 d = true ∧ [c] = [d] ∧ (1 : Nat) = 1
            exact ⟨c, hdig, rfl, rfl⟩
          · cases h
    case LEVEL1 =>
      obtain ⟨d, hd, hacc, hlvl⟩ := hs
      simp only at hacc hlvl
      subst hacc hlvl
      simp only [catGo] at h
      split at h
      · rename_i hdot
        subst hdot
        refine ih _ ?_ _ _ _ _ h
        show ∃ segs, [d] ++ ['.'] = joinDots segs ++ ['.'] ∧ segsOK segs = true ∧
          segs.length + 1 = 2 ∧ 2 ≤ 2 ∧ 2 ≤ 4
        exact ⟨[[d]], rfl, by simp [segsOK, seg1OK, hd], rfl, by omega, by omega⟩
      · split at h
        · refine ih _ ?_ _ _ _ _ h
          show ∃ segs, [d] = joinDots segs ∧ segsOK segs = true ∧
            segs.length = 1 ∧ 1 ≤ 1 ∧ 1 ≤ 4
          exact ⟨[[d]], rfl, by simp [segsOK, seg1OK, hd], rfl, by omega, by omega⟩
        · cases h
    case LEVEL234A =>
      obtain ⟨segs, hacc, hok, hlen, hge, hle⟩ := hs
      simp only at hacc hlen hge hle
      subst hacc
      simp only [catGo] at h
      split at h
      · rename_i hdig
        refine ih _ ?_ _ _ _ _ h
        show ∃ segs' last', (joinDots segs ++ ['.']) ++ [c] = joinDots (segs' ++ [last']) ∧
          segsOK (segs' ++ [last']) = true ∧ (segs' ++ [last']).length = level ∧
          2 ≤ level ∧ level ≤ 4 ∧ last'.length = 1 ∧ 1 ≤ 1 ∧ 1 ≤ 2
        refine ⟨segs, [c], ?_, ?_, ?_, hge, hle, rfl, by omega, by omega⟩
        · rw [joinDots_append segs [c] (segsOK_ne_nil segs hok)]
          simp
        · exact segsOK_append segs [c] hok (by simp [segDeepOK, hdig])
        · simp only [List.length_append, List.length_singleton]
          omega
      · cases h
    case LEVEL234B =>
      obtain ⟨segs, last, hacc, hok, hlen, hge, hle, hlast, hdc1, hdc2⟩ := hs
      simp only at hacc hlen hge hle hlast hdc1 hdc2
      subst hacc
      have hsegs_ne : segs ≠ [] := by
        intro hnil
        subst hnil
        simp at hlen
        omega
      obtain ⟨hokSegs, hokLast⟩ := segsOK_append_parts segs last hsegs_ne hok
      simp only [catGo] at h
      split at h
      · rename_i hdig
        split at h
        · rename_i hcount
          have hdc : digit_count = 1 := by omega
          obtain ⟨d, hlastd, hd19⟩ := segDeep_len1 last (by omega) hokLast
          subst hlastd
          refine ih _ ?_ _ _ _ _ h
          show ∃ segs' last', joinDots (segs ++ [[d]]) ++ [c] = joinDots (segs' ++ [last']) ∧
            segsOK (segs' ++ [last']) = true ∧ (segs' ++ [last']).length = level ∧
            2 ≤ level ∧ level ≤ 4 ∧ last'.length = digit_count + 1 ∧
            1 ≤ digit_count + 1 ∧ digit_count + 1 ≤ 2
          refine ⟨segs, [d] ++ [c], joinDots_snoc_char segs [d] c, ?_, ?_, hge, hle,
            by simp; omega, by omega, by omega⟩
          · exact segsOK_append segs ([d] ++ [c]) hokSegs (by simp [segDeepOK, hd19, hdig])
          · simp only [List.length_append, List.length_singleton] at hlen ⊢
            omega
        · cases h
      · split at h
        · rename_i hdot
          subst hdot
          split at h
          · rename_i hdepth
            refine ih _ ?_ _ _ _ _ h
            show ∃ segs', joinDots (segs ++ [last]) ++ ['.'] = joinDots segs' ++ ['.'] ∧
              segsOK segs' = true ∧ segs'.length + 1 = level + 1 ∧
              2 ≤ level + 1 ∧ level + 1 ≤ 4
            exact ⟨segs ++ [last], rfl, hok, by omega, by omega, hdepth⟩
          · cases h
        · split at h
          · refine ih _ ?_ _ _ _ _ h
            show ∃ segs', joinDots (segs ++ [last]) = joinDots segs' ∧
              segsOK segs' = true ∧ segs'.length = level ∧ 1 ≤ level ∧ level ≤ 4
            exact ⟨segs ++ [last], rfl, hok, hlen, by omega, hle⟩
          · cases h
    case START_DESCR =>
      simp only [catGo] at h
      split at h
      · refine ih _ ?_ _ _ _ _ h
        exact hs
      · split at h
        · cases h
        · refine ih _ ?_ _ _ _ _ h
          exact hs
    case END_DESCR =>
      simp only [catGo] at h
      split at h
      · split at h
        · obtain ⟨segs, hcode, hok, hlen, h1, h4⟩ := hs
          cases h
          exact ⟨segs, hcode, hok, hlen, h1, h4⟩
        · refine ih _ ?_ _ _ _ _ h
          exact hs
      · refine ih _ ?_ _ _ _ _ h
        exact hs
    case END_COMMENT =>
      simp only [catGo] at h
      split at h
      · obtain ⟨segs, hcode, hok, hlen, h1, h4⟩ := hs
        cases h
        exact ⟨segs, hcode, hok, hlen, h1, h4⟩
      · refine ih _ ?_ _ _ _ _ h
        exact hs

/-- C3: every category line accepted by the category parser returns a
level equal to the number of dot-separated segments of the returned
code, and the level lies in [1,4]; the segments are valid (first
segment a single digit 1 to 9, each deeper segment one or two digits
with first digit 1 to 9, so a leading zero such as in 1.08 is
rejected); a three-digit segment and a fifth segment are format
errors. -/
theorem C3_code_shape (line code descr comment : List Char) (lvl : Nat)
    (h : parse_cat_file_line line = .ok code descr comment lvl) :
    ((splitDots code).length = lvl ∧ 1 ≤ lvl ∧ lvl ≤ 4 ∧
      segsOK (splitDots code) = true) ∧
    parse_cat_file_line "1.234 X\n".toList =
      .error "Error, invalid category code, too many digits" ∧
    parse_cat_file_line "1.1.1.1.1 X\n".toList =
      .error "Error, invalid category code, level nested too deeply" ∧
    parse_cat_file_line "1.08 X\n".toList =
      .error "Error, invalid category file format" := by
  refine ⟨?_, by decide, by decide, by decide⟩
  obtain ⟨segs, rfl, hok, hlen, h1, h4⟩ :=
    catGo_ok_shape line catInit trivial code descr comment lvl h
  rw [splitDots_joinDots segs (segsOK_ne_nil segs hok) (segsOK_nodot segs hok)]
  exact ⟨hlen, h1, h4, hok⟩

/-- Witness for C3 on the accepted line "1.80 Util" (a two-digit
deeper segment in the 80 to 99 range). -/
theorem C3_code_shape_witness :
    ((splitDots "1.80".toList).length = 2 ∧ 1 ≤ 2 ∧ 2 ≤ 4 ∧
      segsOK (splitDots "1.80".toList) = true) ∧
    parse_cat_file_line "1.234 X\n".toList =
      .error "Error, invalid category code, too many digits" ∧
    parse_cat_file_line "1.1.1.1.1 X\n".toList =
      .error "Error, invalid category code, level nested too deeply" ∧
    parse_cat_file_line "1.08 X\n".toList =
      .error "Error, invalid category file format" :=
  C3_code_shape "1.80 Util\n".toList "1.80".toList "Util".toList [] 2 (by decide)

/-! ## Claim C5: date validation and expansion -/

lemma isDigit_sep (c : Char) (h : c.isDigit = true) :
    c ≠ ' ' ∧ c ≠ '#' ∧ c ≠ '\n' ∧ c ≠ '/' ∧ c ≠ ',' ∧ c ≠ '.' ∧ c ≠ '-' := by
  refine ⟨?_, ?_, ?_, ?_, ?_, ?_, ?_⟩ <;>
    exact fun he => absurd (he ▸ h) (by decide)

/-- Run of the journal parser over the fixed tail of the C5 and C6
template lines, from the description-search state. -/
lemma jGo_tail_ok (year mv dv dc : Nat) (jd da jde : List Char) (sf : Bool)
    (qd qc qa : ℚ) (ta tj ca : List Char) :
    jGo year ⟨TJ.START_DESCR, mv, dv, dc, jd, da, jde, sf, qd, qc, qa, ta, tj, ca⟩
      " D, 1.00, t, 1\n".toList = .ok jd ['D'] 1 ['t'] ['1'] := by
  simp [jGo, show rstrip ['D'] = ['D'] from by decide,
    show rstrip ['t'] = ['t'] from by decide,
    show charVal '1' = 1 from by decide, show charVal '0' = 0 from by decide]

/-- Run of the journal parser over a one or two digit month field up to
its slash: the month value is checked against 1..12. -/
lemma jGo_month (year : Nat) (ms : List Char) (hne : ms ≠ []) (hlen : ms.length ≤ 2)
    (hdig : ∀ c ∈ ms, c.isDigit = true) (l : List Char) :
    jGo year jInit (ms ++ '/' :: l) =
      if 1 ≤ charsToNat ms ∧ charsToNat ms ≤ 12 then
        jGo year ⟨TJ.DATE, charsToNat ms, 0, 0, [], [], [], false, 0, 0, 0, [], [], []⟩ l
      else .error "Error, invalid month in journal file" := by
  rcases ms with _ | ⟨a, _ | ⟨b, _ | ⟨x, tl⟩⟩⟩
  · exact absurd rfl hne
  · have ha := hdig a (by simp)
    obtain ⟨ha1, ha2, ha3, _, _, _, _⟩ := isDigit_sep a ha
    simp [jGo, jInit, ha, ha1, ha2, ha3, charsToNat]
  · have ha := hdig a (by simp)
    have hb := hdig b (by simp)
    obtain ⟨ha1, ha2, ha3, _, _, _, _⟩ := isDigit_sep a ha
    simp [jGo, jInit, ha, hb, ha1, ha2, ha3, charsToNat]
  · simp at hlen

/-- Run of the journal parser over a one or two digit day field up to
its comma: the day is checked against the month table and the leap
rule, and on success the expanded date is stored. -/
lemma jGo_date (year mv : Nat) (ds : List Char) (hne : ds ≠ []) (hlen : ds.length ≤ 2)
    (hdig : ∀ c ∈ ds, c.isDigit = true) (l : List Char) :
    jGo year ⟨TJ.DATE, mv, 0, 0, [], [], [], false, 0, 0, 0, [], [], []⟩
        (ds ++ ',' :: l) =
      if 1 ≤ charsToNat ds ∧ charsToNat ds ≤ MAX_DATE.getD mv 0 then
        if mv = 2 ∧ charsToNat ds = 29 ∧ ¬(isleap year = true) then
          .error "Error, invalid leap year date in journal file"
        else
          jGo year ⟨TJ.START_DESCR, mv, charsToNat ds, ds.length,
            padNat 2 mv ++ '/' :: padNat 2 (charsToNat ds) ++ '/' :: padNat 4 year,
            [], [], false, 0, 0, 0, [], [], []⟩ l
      else .error "Error, invalid date in journal file" := by
  rcases ds with _ | ⟨a, _ | ⟨b, _ | ⟨x, tl⟩⟩⟩
  · exact absurd rfl hne
  · have ha := hdig a (by simp)
    simp [jGo, ha, charsToNat]
  · have ha := hdig a (by simp)
    have hb := hdig b (by simp)
    simp [jGo, ha, hb, charsToNat]
  · simp at hlen

/-- C5: for a transaction line whose date field is a one or two digit
month and day, the date is accepted iff 1 ≤ month ≤ 12 and
1 ≤ day ≤ MAX_DATE[month] (the fixed table with February extended to
29), with month 2 day 29 additionally requiring the processing year to
be a leap year; on acceptance the stored date is the canonical
MM/DD/YYYY expansion (two-digit month and day, four-digit supplied
year), otherwise the line is a format error. -/
theorem C5_date_validation (year : Nat) (ms ds : List Char)
    (hm1 : ms ≠ []) (hm2 : ms.length ≤ 2) (hm3 : ∀ c ∈ ms, c.isDigit = true)
    (hd1 : ds ≠ []) (hd2 : ds.length ≤ 2) (hd3 : ∀ c ∈ ds, c.isDigit = true) :
    ((1 ≤ charsToNat ms ∧ charsToNat ms ≤ 12 ∧ 1 ≤ charsToNat ds ∧
        charsToNat ds ≤ MAX_DATE.getD (charsToNat ms) 0 ∧
        (charsToNat ms = 2 ∧ charsToNat ds = 29 → isleap year = true)) →
      parse_journal_file_line (ms ++ '/' :: ds ++ ", D, 1.00, t, 1\n".toList) year =
        .ok (padNat 2 (charsToNat ms) ++ '/' :: padNat 2 (charsToNat ds) ++
              '/' :: padNat 4 year) ['D'] 1 ['t'] ['1']) ∧
    (¬(1 ≤ charsToNat ms ∧ charsToNat ms ≤ 12 ∧ 1 ≤ charsToNat ds ∧
        charsToNat ds ≤ MAX_DATE.getD (charsToNat ms) 0 ∧
        (charsToNat ms = 2 ∧ charsToNat ds = 29 → isleap year = true)) →
      (parse_journal_file_line (ms ++ '/' :: ds ++ ", D, 1.00, t, 1\n".toList)
        year).isError = true) := by
  have htail : (", D, 1.00, t, 1\n".toList : List Char) =
      ',' :: " D, 1.00, t, 1\n".toList := by decide
  have hassoc : ms ++ '/' :: ds ++ ", D, 1.00, t, 1\n".toList =
      ms ++ '/' :: (ds ++ ',' :: " D, 1.00, t, 1\n".toList) := by
    rw [htail]
    simp only [List.cons_append, List.append_assoc]
  simp only [parse_journal_file_line, hassoc]
  rw [jGo_month year ms hm1 hm2 hm3]
  by_cases hm : 1 ≤ charsToNat ms ∧ charsToNat ms ≤ 12
  · rw [if_pos hm, jGo_date year (charsToNat ms) ds hd1 hd2 hd3]
    by_cases hd : 1 ≤ charsToNat ds ∧ charsToNat ds ≤ MAX_DATE.getD (charsToNat ms) 0
    · rw [if_pos hd]
      by_cases hl : charsToNat ms = 2 ∧ charsToNat ds = 29 ∧ ¬(isleap year = true)
      · rw [if_pos hl]
        constructor
        · intro hOK
          exact absurd (hOK.2.2.2.2 ⟨hl.1, hl.2.1⟩) hl.2.2
        · intro _
          rfl
      · rw [if_neg hl, jGo_tail_ok]
        constructor
        · intro _
          rfl
        · intro hBad
          exfalso
          apply hBad
          refine ⟨hm.1, hm.2, hd.1, hd.2, fun hmd => ?_⟩
          by_contra hnl
          exact hl ⟨hmd.1, hmd.2, hnl⟩
    · rw [if_neg hd]
      constructor
      · intro hOK
        exact absurd ⟨hOK.2.2.1, hOK.2.2.2.1⟩ hd
      · intro _
        rfl
  · rw [if_neg hm]
    constructor
    · intro hOK
      exact absurd ⟨hOK.1, hOK.2.1⟩ hm
    · intro _
      rfl

/-- Witness for C5: the date 3/9 with year 2015 expands to 03/09/2015. -/
theorem C5_date_validation_witness :
    parse_journal_file_line (['3'] ++ '/' :: ['9'] ++ ", D, 1.00, t, 1\n".toList) 2015 =
      .ok (padNat 2 (charsToNat ['3']) ++ '/' :: padNat 2 (charsToNat ['9']) ++
            '/' :: padNat 4 2015) ['D'] 1 ['t'] ['1'] :=
  (C5_date_validation 2015 ['3'] ['9'] (by simp) (by simp) (by decide)
    (by simp) (by simp) (by decide)).1 (by decide)

/-! ## Claim C6: the amount field -/

/-- Rational digit accumulator, as the DOLLARS and CENTS states
compute it: repeatedly multiply by ten and add the next digit. -/
def accQ (q : ℚ) (ds : List Char) : ℚ :=
  ds.foldl (fun a c => a * 10 + (charVal c : ℚ)) q

lemma accQ_cast (q : Nat) (ds : List Char) :
    accQ (q : ℚ) ds = ((ds.foldl (fun a c => a * 10 + charVal c) q : Nat) : ℚ) := by
  induction ds generalizing q with
  | nil => rfl
  | cons c l ih =>
    show accQ ((q : ℚ) * 10 + (charVal c : ℚ)) l = _
    rw [show (q : ℚ) * 10 + (charVal c : ℚ) = ((q * 10 + charVal c : Nat) : ℚ) by
      push_cast; ring]
    rw [ih]
    rfl

lemma accQ_zero (ds : List Char) : accQ 0 ds = (charsToNat ds : ℚ) := by
  have h := accQ_cast 0 ds
  simpa [charsToNat] using h

lemma accQ_charVal (d : Char) (ds : List Char) :
    accQ ((charVal d : Nat) : ℚ) ds = (charsToNat (d :: ds) : ℚ) := by
  rw [accQ_cast]
  congr 1
  simp [charsToNat]

/-- Run of the DOLLARS state over a block of digits. -/
lemma jGo_run_dollars (year : Nat) (ds : List Char) (hds : ∀ c ∈ ds, c.isDigit = true) :
    ∀ (dc : Nat) (q : ℚ) (mv dv : Nat) (jd da jde ta tj ca : List Char) (sf : Bool)
      (qc qa : ℚ) (l : List Char),
    jGo year ⟨TJ.DOLLARS, mv, dv, dc, jd, da, jde, sf, q, qc, qa, ta, tj, ca⟩ (ds ++ l) =
      jGo year ⟨TJ.DOLLARS, mv, dv, dc + ds.length, jd, da, jde, sf, accQ q ds,
        qc, qa, ta, tj, ca⟩ l := by
  induction ds with
  | nil =>
    intro dc q mv dv jd da jde ta tj ca sf qc qa l
    simp [accQ]
  | cons c cs ih =>
    intro dc q mv dv jd da jde ta tj ca sf qc qa l
    have hc := hds c (by simp)
    rw [List.cons_append,
      show jGo year ⟨TJ.DOLLARS, mv, dv, dc, jd, da, jde, sf, q, qc, qa, ta, tj, ca⟩
          (c :: (cs ++ l)) =
        jGo year ⟨TJ.DOLLARS, mv, dv, dc + 1, jd, da, jde, sf,
          q * 10 + (charVal c : ℚ), qc, qa, ta, tj, ca⟩ (cs ++ l) from by
        simp [jGo, hc],
      ih (fun x hx => hds x (by simp [hx])) (dc + 1) (q * 10 + (charVal c : ℚ))]
    simp only [List.length_cons]
    rw [show dc + (cs.length + 1) = dc + 1 + cs.length from by omega]
    rfl

/-- Run of the CENTS state over a block of digits. -/
lemma jGo_run_cents (year : Nat) (ds : List Char) (hds : ∀ c ∈ ds, c.isDigit = true) :
    ∀ (dc : Nat) (q : ℚ) (mv dv : Nat) (jd da jde ta tj ca : List Char) (sf : Bool)
      (qd qa : ℚ) (l : List Char),
    jGo year ⟨TJ.CENTS, mv, dv, dc, jd, da, jde, sf, qd, q, qa, ta, tj, ca⟩ (ds ++ l) =
      jGo year ⟨TJ.CENTS, mv, dv, dc + ds.length, jd, da, jde, sf, qd, accQ q ds,
        qa, ta, tj, ca⟩ l := by
  induction ds with
  | nil =>
    intro dc q mv dv jd da jde ta tj ca sf qd qa l
    simp [accQ]
  | cons c cs ih =>
    intro dc q mv dv jd da jde ta tj ca sf qd qa l
    have hc := hds c (by simp)
    rw [List.cons_append,
      show jGo year ⟨TJ.CENTS, mv, dv, dc, jd, da, jde, sf, qd, q, qa, ta, tj, ca⟩
          (c :: (cs ++ l)) =
        jGo year ⟨TJ.CENTS, mv, dv, dc + 1, jd, da, jde, sf, qd,
          q * 10 + (charVal c : ℚ), qa, ta, tj, ca⟩ (cs ++ l) from by
        simp [jGo, hc],
      ih (fun x hx => hds x (by simp [hx])) (dc + 1) (q * 10 + (charVal c : ℚ))]
    simp only [List.length_cons]
    rw [show dc + (cs.length + 1) = dc + 1 + cs.length from by omega]
    rfl

/-- Run of the journal parser over the fixed prefix of the C6 template
line, stopping at the start of the amount field. -/
lemma jGo_amt_prefix (year : Nat) (l : List Char) :
    jGo year jInit ("1/1, D, ".toList ++ l) =
      jGo year ⟨TJ.START_AMT, 1, 1, 1,
        padNat 2 1 ++ '/' :: padNat 2 1 ++ '/' :: padNat 4 year,
        ['D'], ['D'], false, 0, 0, 0, [], [], []⟩ l := by
  simp [jGo, jInit, show charVal '1' = 1 from by decide,
    show rstrip ['D'] = ['D'] from by decide, MAX_DATE]

/-- Run of the journal parser over the fixed tail of the C6 template
line, from the type-search state. -/
lemma jGo_amt_tail (year mv dv dc : Nat) (jd da jde : List Char) (sf : Bool)
    (qd qc qa : ℚ) (ta tj ca : List Char) :
    jGo year ⟨TJ.START_TYPE, mv, dv, dc, jd, da, jde, sf, qd, qc, qa, ta, tj, ca⟩
      " t, 1\n".toList = .ok jd jde qa ['t'] ['1'] := by
  simp [jGo, show rstrip ['t'] = ['t'] from by decide]

/-- Core of the amount field: from the DOLLARS state, a run of dollar
digits, the dot, and the cents digits is accepted iff there are
exactly two cents digits, producing sign times dollars plus cents
over one hundred. -/
lemma jGo_amount_core (year : Nat) (sf : Bool) (q0 : ℚ) (dc0 : Nat) (jd : List Char)
    (cs : List Char) (hcs : ∀ c ∈ cs, c.isDigit = true) (ds' : List Char)
    (hds' : ∀ c ∈ ds', c.isDigit = true) (hctr : dc0 + ds'.length ≠ 0) :
    (cs.length = 2 →
      jGo year ⟨TJ.DOLLARS, 1, 1, dc0, jd, ['D'], ['D'], sf, q0, 0, 0, [], [], []⟩
          (ds' ++ '.' :: (cs ++ ", t, 1\n".toList)) =
        .ok jd ['D']
          (if sf then -(accQ q0 ds' + accQ 0 cs / 100)
           else accQ q0 ds' + accQ 0 cs / 100) ['t'] ['1']) ∧
    (cs.length ≠ 2 →
      (jGo year ⟨TJ.DOLLARS, 1, 1, dc0, jd, ['D'], ['D'], sf, q0, 0, 0, [], [], []⟩
          (ds' ++ '.' :: (cs ++ ", t, 1\n".toList))).isError = true) := by
  rw [jGo_run_dollars year ds' hds' dc0 q0]
  have hdot : jGo year ⟨TJ.DOLLARS, 1, 1, dc0 + ds'.length, jd, ['D'], ['D'], sf,
      accQ q0 ds', 0, 0, [], [], []⟩ ('.' :: (cs ++ ", t, 1\n".toList)) =
      jGo year ⟨TJ.CENTS, 1, 1, 0, jd, ['D'], ['D'], sf,
        accQ q0 ds', 0, 0, [], [], []⟩ (cs ++ ", t, 1\n".toList) := by
    simp [jGo, hctr]
  rw [hdot]
  constructor
  · intro h2
    rcases cs with _ | ⟨c1, _ | ⟨c2, _ | ⟨c3, tl⟩⟩⟩ <;> simp at h2
    have hc1 := hcs c1 (by simp)
    have hc2 := hcs c2 (by simp)
    simp [jGo, hc1, hc2, jGo_amt_tail, accQ,
      show rstrip ['t'] = ['t'] from by decide]
  · intro h2
    rw [show (cs ++ ", t, 1\n".toList : List Char) =
        cs ++ (',' :: " t, 1\n".toList) from by
      rw [show (", t, 1\n".toList : List Char) = ',' :: " t, 1\n".toList from by decide],
      jGo_run_cents year cs hcs 0 0]
    simp [jGo, JRes.isError, h2, jGo_amt_tail,
      show rstrip ['t'] = ['t'] from by decide]

/-- C6: the amount field is accepted iff it consists of an optional
leading minus sign, at least one dollar digit, a dot, and exactly two
cents digits before the terminating comma; the stored amount is the
sign applied to dollars plus cents over one hundred.  A bare sign, a
sign followed directly by the dot, a missing dot, and any cents count
other than two are errors. -/
theorem C6_amount_field (year : Nat) (neg : Bool) (ds cs : List Char)
    (hds1 : ds ≠ []) (hds2 : ∀ c ∈ ds, c.isDigit = true)
    (hcs : ∀ c ∈ cs, c.isDigit = true) :
    ((cs.length = 2 →
      parse_journal_file_line
          ("1/1, D, ".toList ++ (if neg then ['-'] else []) ++ ds ++ '.' :: cs ++
            ", t, 1\n".toList) year =
        .ok (padNat 2 1 ++ '/' :: padNat 2 1 ++ '/' :: padNat 4 year) ['D']
          (if neg then -((charsToNat ds : ℚ) + (charsToNat cs : ℚ) / 100)
           else (charsToNat ds : ℚ) + (charsToNat cs : ℚ) / 100) ['t'] ['1']) ∧
     (cs.length ≠ 2 →
      (parse_journal_file_line
          ("1/1, D, ".toList ++ (if neg then ['-'] else []) ++ ds ++ '.' :: cs ++
            ", t, 1\n".toList) year).isError = true)) ∧
    (parse_journal_file_line "1/1, D, -, t, 1\n".toList year).isError = true ∧
    (parse_journal_file_line "1/1, D, -.50, t, 1\n".toList year).isError = true ∧
    (parse_journal_file_line "1/1, D, 5, t, 1\n".toList year).isError = true := by
  refine ⟨?_, ?_, ?_, ?_⟩
  · have hassoc :
        ("1/1, D, ".toList ++ (if neg then ['-'] else []) ++ ds ++ '.' :: cs ++
          ", t, 1\n".toList : List Char) =
        "1/1, D, ".toList ++
          ((if neg then ['-'] else []) ++ (ds ++ '.' :: (cs ++ ", t, 1\n".toList))) := by
      simp only [List.append_assoc, List.cons_append]
    simp only [parse_journal_file_line, hassoc, jGo_amt_prefix]
    generalize hJ : (padNat 2 1 ++ '/' :: padNat 2 1 ++ '/' :: padNat 4 year :
      List Char) = J
    cases neg with
    | true =>
      rw [if_pos rfl, List.singleton_append]
      have hstep : ∀ X, jGo year
          ⟨TJ.START_AMT, 1, 1, 1, J, ['D'], ['D'], false, 0, 0, 0, [], [], []⟩
            ('-' :: X) =
          jGo year ⟨TJ.DOLLARS, 1, 1, 0, J, ['D'], ['D'], true, 0, 0, 0, [], [], []⟩ X :=
        fun X => by simp [jGo]
      rw [hstep]
      have hlen : (0 : Nat) + ds.length ≠ 0 := by
        have := List.length_pos.mpr hds1
        omega
      have hcore := jGo_amount_core year true 0 0 J cs hcs ds hds2 hlen
      constructor
      · intro h2
        rw [hcore.1 h2, accQ_zero, accQ_zero]
      · intro h2
        exact hcore.2 h2
    | false =>
      rw [if_neg (by simp), List.nil_append]
      rcases ds with _ | ⟨d0, ds'⟩
      · exact absurd rfl hds1
      have hd0 := hds2 d0 (by simp)
      obtain ⟨hs1, _, _, _, _, _, hs7⟩ := isDigit_sep d0 hd0
      rw [List.cons_append]
      have hstep : ∀ X, jGo year
          ⟨TJ.START_AMT, 1, 1, 1, J, ['D'], ['D'], false, 0, 0, 0, [], [], []⟩
            (d0 :: X) =
          jGo year ⟨TJ.DOLLARS, 1, 1, 1, J, ['D'], ['D'], false, (charVal d0 : ℚ),
            0, 0, [], [], []⟩ X :=
        fun X => by simp [jGo, hd0, hs1, hs7]
      rw [hstep]
      have hcore := jGo_amount_core year false (charVal d0 : ℚ) 1 J cs hcs ds'
        (fun c hc => hds2 c (by simp [hc])) (by omega)
      constructor
      · intro h2
        rw [hcore.1 h2, accQ_charVal, accQ_zero]
      · intro h2
        exact hcore.2 h2
  · show (jGo year jInit "1/1, D, -, t, 1\n".toList).isError = true
    rw [show ("1/1, D, -, t, 1\n".toList : List Char) =
        "1/1, D, ".toList ++ "-, t, 1\n".toList from by decide, jGo_amt_prefix]
    simp [jGo, JRes.isError]
  · show (jGo year jInit "1/1, D, -.50, t, 1\n".toList).isError = true
    rw [show ("1/1, D, -.50, t, 1\n".toList : List Char) =
        "1/1, D, ".toList ++ "-.50, t, 1\n".toList from by decide, jGo_amt_prefix]
    simp [jGo, JRes.isError]
  · show (jGo year jInit "1/1, D, 5, t, 1\n".toList).isError = true
    rw [show ("1/1, D, 5, t, 1\n".toList : List Char) =
        "1/1, D, ".toList ++ "5, t, 1\n".toList from by decide, jGo_amt_prefix]
    simp [jGo, JRes.isError, show charVal '5' = 5 from by decide]

/-- Witness for C6: the amount 292.03 is parsed to 292 + 3/100. -/
theorem C6_amount_field_witness :
    parse_journal_file_line
        ("1/1, D, ".toList ++ (if false then ['-'] else []) ++ ['2', '9', '2'] ++
          '.' :: ['0', '3'] ++ ", t, 1\n".toList) 2015 =
      .ok (padNat 2 1 ++ '/' :: padNat 2 1 ++ '/' :: padNat 4 2015) ['D']
        (if false then -((charsToNat ['2', '9', '2'] : ℚ) +
            (charsToNat ['0', '3'] : ℚ) / 100)
         else (charsToNat ['2', '9', '2'] : ℚ) + (charsToNat ['0', '3'] : ℚ) / 100)
        ['t'] ['1'] :=
  ((C6_amount_field 2015 false ['2', '9', '2'] ['0', '3'] (by simp) (by decide)
    (by decide)).1).1 (by decide)

/-! ## List sum toolkit for the aggregation proofs -/

lemma listSum_map_add (l : List Nat) (f g : Nat → ℚ) :
    (l.map (fun x => f x + g x)).sum = (l.map f).sum + (l.map g).sum := by
  induction l with
  | nil => simp
  | cons a l ih => simp [ih]; ring

lemma listSum_map_zero_of (l : List Nat) (f : Nat → ℚ) (h : ∀ x ∈ l, f x = 0) :
    (l.map f).sum = 0 := by
  induction l with
  | nil => simp
  | cons a l ih =>
    simp only [List.map_cons, List.sum_cons]
    rw [h a (by simp), ih (fun x hx => h x (by simp [hx]))]
    simp

lemma listMap_congr (l : List Nat) (f g : Nat → ℚ) (h : ∀ a ∈ l, f a = g a) :
    l.map f = l.map g := by
  induction l with
  | nil => rfl
  | cons a l ih =>
    simp only [List.map_cons]
    rw [h a (by simp), ih (fun x hx => h x (by simp [hx]))]

lemma listFilter_congr (l : List Nat) (p q : Nat → Bool) (h : ∀ a ∈ l, p a = q a) :
    l.filter p = l.filter q := by
  induction l with
  | nil => rfl
  | cons a l ih =>
    simp only [List.filter_cons]
    rw [h a (by simp), ih (fun x hx => h x (by simp [hx]))]

lemma filtmap (l : List Nat) (q : Nat → Bool) (h : Nat → ℚ) :
    ((l.filter q).map h).sum = (l.map (fun j => if q j = true then h j else 0)).sum := by
  induction l with
  | nil => rfl
  | cons a l ih =>
    simp only [List.filter_cons, List.map_cons, List.sum_cons]
    by_cases hq : q a = true
    · rw [if_pos hq, if_pos hq, List.map_cons, List.sum_cons, ih]
    · rw [if_neg hq, if_neg hq, ih]
      simp

lemma sum_ite_unique (v : ℚ) : ∀ (L : List Nat), L.Nodup → ∀ (p : Nat → Bool) (j0 : Nat),
    j0 ∈ L → p j0 = true → (∀ j ∈ L, p j = true → j = j0) →
    (L.map (fun j => if p j = true then v else 0)).sum = v := by
  intro L
  induction L with
  | nil => intro _ p j0 hmem; cases hmem
  | cons a L ih =>
    intro hnd p j0 hmem hp huniq
    have hna : a ∉ L := (List.nodup_cons.mp hnd).1
    simp only [List.map_cons, List.sum_cons]
    by_cases haj : a = j0
    · subst haj
      rw [if_pos hp]
      have hzero : (L.map (fun j => if p j = true then v else 0)).sum = 0 := by
        refine listSum_map_zero_of _ _ (fun x hx => ?_)
        have : ¬p x = true := fun hpx => hna ((huniq x (by simp [hx]) hpx) ▸ hx)
        rw [if_neg this]
      rw [hzero]
      simp
    · have hpa : ¬p a = true := fun hpa => haj (huniq a (by simp) hpa)
      rw [if_neg hpa]
      have hmem2 : j0 ∈ L := by
        rcases List.mem_cons.mp hmem with h | h
        · exact absurd h.symm haj
        · exact h
      rw [ih (List.nodup_cons.mp hnd).2 p j0 hmem2 hp
        (fun j hj hpj => huniq j (by simp [hj]) hpj)]
      simp

/-- Regroup a sum over elements selected by `s` by their unique
"parent" `j` among `outer` (selected by `q`, related by `r`). -/
lemma sum_group_by_parent (g : Nat → ℚ) (outer : List Nat) (hnd : outer.Nodup)
    (q : Nat → Bool) (r : Nat → Nat → Bool) (s : Nat → Bool) :
    ∀ (l : List Nat),
    (∀ k ∈ l, (s k = true ↔ ∃ j, j ∈ outer ∧ q j = true ∧ r j k = true)) →
    (∀ k ∈ l, ∀ j1, j1 ∈ outer → q j1 = true → r j1 k = true →
      ∀ j2, j2 ∈ outer → q j2 = true → r j2 k = true → j1 = j2) →
    ((l.filter s).map g).sum =
      (outer.map (fun j =>
        if q j = true then ((l.filter (r j)).map g).sum else 0)).sum := by
  intro l
  induction l with
  | nil =>
    intro _ _
    simp
  | cons c l ih =>
    intro hmem huniq
    have hrec := ih (fun k hk => hmem k (by simp [hk]))
      (fun k hk => huniq k (by simp [hk]))
    have hsplit : (outer.map (fun j =>
        if q j = true then ((( c :: l).filter (r j)).map g).sum else 0)).sum =
        (outer.map (fun j =>
          if (q j && r j c) = true then g c else 0)).sum +
        (outer.map (fun j =>
          if q j = true then ((l.filter (r j)).map g).sum else 0)).sum := by
      rw [← listSum_map_add]
      refine congrArg _ (listMap_congr _ _ _ (fun j _ => ?_))
      by_cases hq : q j = true
      · by_cases hr : r j c = true
        · simp [hq, hr, List.filter_cons]
        · simp [hq, hr, List.filter_cons]
      · simp [hq]
    rw [hsplit]
    by_cases hsc : s c = true
    · obtain ⟨j0, hj0, hq0, hr0⟩ := (hmem c (by simp)).mp hsc
      have hone : (outer.map (fun j =>
          if (q j && r j c) = true then g c else 0)).sum = g c := by
        refine sum_ite_unique (g c) outer hnd _ j0 hj0 (by simp [hq0, hr0])
          (fun j hj hpj => ?_)
        simp only [Bool.and_eq_true] at hpj
        exact huniq c (by simp) j hj hpj.1 hpj.2 j0 hj0 hq0 hr0
      rw [hone, ← hrec]
      simp [List.filter_cons, hsc]
    · have hzero : (outer.map (fun j =>
          if (q j && r j c) = true then g c else 0)).sum = 0 := by
        refine listSum_map_zero_of _ _ (fun j hj => ?_)
        have : ¬(q j && r j c) = true := by
          intro hqr
          simp only [Bool.and_eq_true] at hqr
          exact hsc ((hmem c (by simp)).mpr ⟨j, hj, hqr.1, hqr.2⟩)
        rw [if_neg this]
      rw [hzero, ← hrec]
      simp [List.filter_cons, hsc]

/-! ## Frame properties of the aggregation fold -/

/-- All fields of a category object except the two nested
accumulators. -/
def skel (c : CatCode) :
    List Char × List Char × List Char × Nat × Nat × Option Nat × List Nat × ℚ ×
      (Fin 12 → ℚ) × List Nat × Nat :=
  (c.cat_str, c.descr, c.comment, c.level, c.line_nbr, c.parent, c.children,
    c.total, c.monthly, c.journal, c.longest)

lemma skel_fields {a b : CatCode} (h : skel a = skel b) :
    a.cat_str = b.cat_str ∧ a.descr = b.descr ∧ a.comment = b.comment ∧
    a.level = b.level ∧ a.line_nbr = b.line_nbr ∧ a.parent = b.parent ∧
    a.children = b.children ∧ a.total = b.total ∧ a.monthly = b.monthly ∧
    a.journal = b.journal ∧ a.longest = b.longest := by
  simpa [skel, Prod.ext_iff] using h

/-- One aggregation step changes only nested accumulators. -/
lemma aggIdx_frame (lvl : Nat) (cats : List CatCode) (cidx : Nat) :
    (aggIdx lvl cats cidx).length = cats.length ∧
    ∀ j, skel (catAt (aggIdx lvl cats cidx) j) = skel (catAt cats j) := by
  unfold aggIdx
  split
  · exact ⟨rfl, fun j => rfl⟩
  · rename_i cc hget
    split
    · split
      · exact ⟨rfl, fun j => rfl⟩
      · rename_i pidx hpar
        split
        · exact ⟨rfl, fun j => rfl⟩
        · rename_i pc hgp
          refine ⟨by simp, fun j => ?_⟩
          rw [catAt_set]
          by_cases hc : pidx = j ∧ pidx < cats.length
          · rw [if_pos hc]
            have hpc : pc = catAt cats pidx := by
              have hlt : pidx < cats.length := hc.2
              rw [get?_eq_catAt cats pidx hlt] at hgp
              exact (Option.some_inj.mp hgp).symm
            rw [← hc.1, ← hpc]
            rfl
          · rw [if_neg hc]
    · exact ⟨rfl, fun j => rfl⟩

/-- A fold of aggregation steps changes only nested accumulators. -/
lemma foldl_aggIdx_frame (lvl : Nat) (L : List Nat) : ∀ (cats : List CatCode),
    (L.foldl (aggIdx lvl) cats).length = cats.length ∧
    ∀ j, skel (catAt (L.foldl (aggIdx lvl) cats) j) = skel (catAt cats j) := by
  induction L with
  | nil => exact fun cats => ⟨rfl, fun j => rfl⟩
  | cons c L ih =>
    intro cats
    have h1 := aggIdx_frame lvl cats c
    have h2 := ih (aggIdx lvl cats c)
    exact ⟨h2.1.trans h1.1, fun j => (h2.2 j).trans (h1.2 j)⟩

/-- One level of the aggregation pass changes only nested
accumulators. -/
lemma aggLevel_frame (lvl : Nat) (cats : List CatCode) :
    (aggLevel lvl cats).length = cats.length ∧
    ∀ j, skel (catAt (aggLevel lvl cats) j) = skel (catAt cats j) :=
  foldl_aggIdx_frame lvl (List.range cats.length) cats

/-- The whole aggregation pass changes only nested accumulators. -/
lemma aggregate_frame (cats : List CatCode) :
    (aggregate cats).length = cats.length ∧
    ∀ j, skel (catAt (aggregate cats) j) = skel (catAt cats j) := by
  have h4 := aggLevel_frame 4 cats
  have h3 := aggLevel_frame 3 (aggLevel 4 cats)
  have h2 := aggLevel_frame 2 (aggLevel 3 (aggLevel 4 cats))
  constructor
  · show (aggLevel 2 (aggLevel 3 (aggLevel 4 cats))).length = cats.length
    rw [h2.1, h3.1, h4.1]
  · intro j
    show skel (catAt (aggLevel 2 (aggLevel 3 (aggLevel 4 cats))) j) = skel (catAt cats j)
    rw [h2.2 j, h3.2 j, h4.2 j]

/-- Effect of a fold of aggregation steps on the nested accumulators:
processing the indices in `L` at level `lvl` adds into each node `i`
the direct-plus-nested values of the processed level-`lvl` nodes whose
parent is `i`, both for the year-to-date total and for each month. -/
lemma foldl_aggIdx_nested (lvl : Nat) :
    ∀ (L : List Nat) (cats : List CatCode),
    (∀ c ∈ L, c < cats.length) →
    (∀ j, j < cats.length → (catAt cats j).level = lvl →
      ∃ p, (catAt cats j).parent = some p ∧ p < cats.length ∧
        (catAt cats p).level + 1 = lvl) →
    ∀ i, i < cats.length →
      ((catAt (L.foldl (aggIdx lvl) cats) i).nested_total =
          (catAt cats i).nested_total +
          ((L.filter (fun j => (catAt cats j).level == lvl &&
              (catAt cats j).parent == some i)).map
            (fun j => (catAt cats j).total + (catAt cats j).nested_total)).sum) ∧
      (∀ m, (catAt (L.foldl (aggIdx lvl) cats) i).nested_monthly m =
          (catAt cats i).nested_monthly m +
          ((L.filter (fun j => (catAt cats j).level == lvl &&
              (catAt cats j).parent == some i)).map
            (fun j => (catAt cats j).monthly m +
              (catAt cats j).nested_monthly m)).sum) := by
  intro L
  induction L with
  | nil =>
    intro cats _ _ i _
    exact ⟨by simp, fun m => by simp⟩
  | cons c L ih =>
    intro cats hmem hpar i hi
    have hc : c < cats.length := hmem c (by simp)
    have hgc : cats.get? c = some (catAt cats c) := get?_eq_catAt cats c hc
    by_cases hlev : (catAt cats c).level = lvl
    · obtain ⟨p, hp1, hp2, hp3⟩ := hpar c hc hlev
      have hgp : cats.get? p = some (catAt cats p) := get?_eq_catAt cats p hp2
      have hplev : ¬(catAt cats p).level = lvl := by omega
      set pc' : CatCode :=
        { catAt cats p with
          nested_total := (catAt cats p).nested_total +
            ((catAt cats c).total + (catAt cats c).nested_total)
          nested_monthly := fun m => (catAt cats p).nested_monthly m +
            ((catAt cats c).monthly m + (catAt cats c).nested_monthly m) } with hpc'
      have hstep : aggIdx lvl cats c = cats.set p pc' := by
        unfold aggIdx
        simp only [hgc, hp1, hgp]
        rw [if_pos hlev]
      set cats1 := cats.set p pc' with hcats1
      have hlen1 : cats1.length = cats.length := by simp [hcats1]
      have hat : ∀ j, catAt cats1 j =
          if p = j ∧ p < cats.length then pc' else catAt cats j :=
        fun j => catAt_set cats p j pc'
      have hskel1 : ∀ j, (catAt cats1 j).level = (catAt cats j).level ∧
          (catAt cats1 j).parent = (catAt cats j).parent ∧
          (catAt cats1 j).total = (catAt cats j).total ∧
          (catAt cats1 j).monthly = (catAt cats j).monthly := by
        intro j
        rw [hat j]
        by_cases hpj : p = j ∧ p < cats.length
        · rw [if_pos hpj, ← hpj.1]
          exact ⟨rfl, rfl, rfl, rfl⟩
        · rw [if_neg hpj]
          exact ⟨rfl, rfl, rfl, rfl⟩
      have hnest1 : ∀ j, (catAt cats1 j).nested_total =
          (catAt cats j).nested_total +
            (if p = j then (catAt cats c).total + (catAt cats c).nested_total
             else 0) := by
        intro j
        rw [hat j]
        by_cases hpj : p = j ∧ p < cats.length
        · rw [if_pos hpj, if_pos hpj.1, ← hpj.1]
        · have hne : ¬p = j := fun he => hpj ⟨he, hp2⟩
          rw [if_neg hpj, if_neg hne]
          simp
      have hnestm1 : ∀ j m, (catAt cats1 j).nested_monthly m =
          (catAt cats j).nested_monthly m +
            (if p = j then (catAt cats c).monthly m +
              (catAt cats c).nested_monthly m else 0) := by
        intro j m
        rw [hat j]
        by_cases hpj : p = j ∧ p < cats.length
        · rw [if_pos hpj, if_pos hpj.1, ← hpj.1]
        · have hne : ¬p = j := fun he => hpj ⟨he, hp2⟩
          rw [if_neg hpj, if_neg hne]
          simp
      have ihres := ih cats1
        (fun x hx => by rw [hlen1]; exact hmem x (by simp [hx]))
        (fun j hj hjl => by
          rw [hlen1] at hj
          rw [(hskel1 j).1] at hjl
          obtain ⟨p2, hq1, hq2, hq3⟩ := hpar j hj hjl
          exact ⟨p2, by rw [(hskel1 j).2.1]; exact hq1, by rw [hlen1]; exact hq2,
            by rw [(hskel1 p2).1]; exact hq3⟩)
        i (by rw [hlen1]; exact hi)
      have hfileq : L.filter (fun j => (catAt cats1 j).level == lvl &&
            (catAt cats1 j).parent == some i) =
          L.filter (fun j => (catAt cats j).level == lvl &&
            (catAt cats j).parent == some i) :=
        listFilter_congr L _ _ (fun j _ => by rw [(hskel1 j).1, (hskel1 j).2.1])
      have hmapT : (L.filter (fun j => (catAt cats j).level == lvl &&
            (catAt cats j).parent == some i)).map
            (fun j => (catAt cats1 j).total + (catAt cats1 j).nested_total) =
          (L.filter (fun j => (catAt cats j).level == lvl &&
            (catAt cats j).parent == some i)).map
            (fun j => (catAt cats j).total + (catAt cats j).nested_total) := by
        refine listMap_congr _ _ _ (fun j hj => ?_)
        have hcond := (List.mem_filter.mp hj).2
        simp only [Bool.and_eq_true, beq_iff_eq] at hcond
        have hne : ¬p = j := fun he => hplev (by rw [he]; exact hcond.1)
        rw [(hskel1 j).2.2.1, hnest1 j, if_neg hne]
        simp
      have hmapM : ∀ m, (L.filter (fun j => (catAt cats j).level == lvl &&
            (catAt cats j).parent == some i)).map
            (fun j => (catAt cats1 j).monthly m + (catAt cats1 j).nested_monthly m) =
          (L.filter (fun j => (catAt cats j).level == lvl &&
            (catAt cats j).parent == some i)).map
            (fun j => (catAt cats j).monthly m + (catAt cats j).nested_monthly m) := by
        intro m
        refine listMap_congr _ _ _ (fun j hj => ?_)
        have hcond := (List.mem_filter.mp hj).2
        simp only [Bool.and_eq_true, beq_iff_eq] at hcond
        have hne : ¬p = j := fun he => hplev (by rw [he]; exact hcond.1)
        rw [(hskel1 j).2.2.2, hnestm1 j m, if_neg hne]
        simp
      have hcondc : ((catAt cats c).level == lvl &&
          (catAt cats c).parent == some i) = (p == i) := by
        rw [hp1]
        simp [hlev]
      rw [List.foldl_cons, hstep]
      constructor
      · rw [ihres.1, hfileq, hmapT, hnest1 i, List.filter_cons, hcondc]
        by_cases hpi : p = i
        · have hb : (p == i) = true := by simp [hpi]
          rw [if_pos hpi, if_pos hb]
          simp only [List.map_cons, List.sum_cons]
          ring
        · have hb : ¬((p == i) = true) := by simp [hpi]
          rw [if_neg hpi, if_neg hb]
          ring
      · intro m
        rw [(ihres.2) m, hfileq, hmapM m, hnestm1 i m, List.filter_cons, hcondc]
        by_cases hpi : p = i
        · have hb : (p == i) = true := by simp [hpi]
          rw [if_pos hpi, if_pos hb]
          simp only [List.map_cons, List.sum_cons]
          ring
        · have hb : ¬((p == i) = true) := by simp [hpi]
          rw [if_neg hpi, if_neg hb]
          ring
    · have hstep : aggIdx lvl cats c = cats := by
        unfold aggIdx
        simp only [hgc]
        rw [if_neg hlev]
      have hcondc : ((catAt cats c).level == lvl &&
          (catAt cats c).parent == some i) = false := by
        simp [hlev]
      rw [List.foldl_cons, hstep, List.filter_cons]
      rw [if_neg (by simp [hcondc])]
      exact ih cats (fun x hx => hmem x (by simp [hx])) hpar i hi

/-! ## Parent chains under well-formed levels -/

/-- Unpacked form of the per-node well-formedness check. -/
lemma wf_unpack (cats : List CatCode) (hwf : WFCats cats) :
    ∀ i, i < cats.length →
      1 ≤ (catAt cats i).level ∧ (catAt cats i).level ≤ 4 ∧
      ((catAt cats i).level = 1 → (catAt cats i).parent = none) ∧
      (1 < (catAt cats i).level → ∃ p, (catAt cats i).parent = some p ∧
        p < cats.length ∧ (catAt cats p).level + 1 = (catAt cats i).level) := by
  intro i hi
  have h := hwf i hi
  unfold wfNode at h
  simp only [Bool.and_eq_true, decide_eq_true_eq] at h
  obtain ⟨⟨h1, h2⟩, h3⟩ := h
  refine ⟨h1, h2, ?_, ?_⟩
  · intro hl1
    rw [if_pos hl1] at h3
    exact beq_iff_eq.mp h3
  · intro hgt
    rw [if_neg (by omega)] at h3
    rcases hp : (catAt cats i).parent with _ | p
    · rw [hp] at h3
      cases h3
    · rw [hp] at h3
      simp only [Bool.and_eq_true, decide_eq_true_eq, beq_iff_eq] at h3
      exact ⟨p, rfl, h3.1, h3.2⟩

/-- Value of one parent step of `parIter`. -/
lemma parIter_one (par : Nat → Option Nat) (j : Nat) : parIter par 1 j = par j := by
  unfold parIter
  rcases par j with _ | p <;> rfl

/-- Splitting the last step off an iterated parent chain. -/
lemma parIter_succ_last (par : Nat → Option Nat) :
    ∀ (s : Nat) (k i : Nat), (parIter par (s + 1) k = some i ↔
      ∃ j, parIter par s k = some j ∧ par j = some i) := by
  intro s
  induction s with
  | zero =>
    intro k i
    rw [parIter_one]
    constructor
    · intro h
      exact ⟨k, rfl, h⟩
    · rintro ⟨j, hj, hpj⟩
      cases hj
      exact hpj
  | succ s ih =>
    intro k i
    constructor
    · intro h
      unfold parIter at h
      rcases hpk : par k with _ | p
      · rw [hpk] at h
        cases h
      · rw [hpk] at h
        obtain ⟨j, hj, hpj⟩ := (ih p i).mp h
        refine ⟨j, ?_, hpj⟩
        show parIter par (s + 1) k = some j
        unfold parIter
        rw [hpk]
        exact hj
    · rintro ⟨j, hj, hpj⟩
      show parIter par (s + 1 + 1) k = some i
      unfold parIter
      rcases hpk : par k with _ | p
      · unfold parIter at hj
        rw [hpk] at hj
        cases hj
      · unfold parIter at hj
        rw [hpk] at hj
        exact (ih p i).mpr ⟨j, hj, hpj⟩

/-- Bounded parent reachability as a disjunction of exact chain
lengths. -/
lemma pstar_iff_parIter (par : Nat → Option Nat) :
    ∀ (f : Nat) (j i : Nat), (pstar par f j i = true ↔
      ∃ s, 1 ≤ s ∧ s ≤ f ∧ parIter par s j = some i) := by
  intro f
  induction f with
  | zero =>
    intro j i
    simp only [pstar]
    constructor
    · intro h
      cases h
    · rintro ⟨s, h1, h2, _⟩
      omega
  | succ f ih =>
    intro j i
    constructor
    · intro h
      unfold pstar at h
      rcases hpj : par j with _ | p
      · rw [hpj] at h
        cases h
      · rw [hpj] at h
        rcases Bool.or_eq_true_iff.mp h with h | h
        · refine ⟨1, by omega, by omega, ?_⟩
          rw [parIter_one, hpj]
          exact congrArg some (beq_iff_eq.mp h)
        · obtain ⟨s, h1, h2, h3⟩ := (ih p i).mp h
          refine ⟨s + 1, by omega, by omega, ?_⟩
          show parIter par (s + 1) j = some i
          unfold parIter
          rw [hpj]
          exact h3
    · rintro ⟨s, h1, h2, h3⟩
      unfold pstar
      rcases s with _ | s
      · omega
      · unfold parIter at h3
        rcases hpj : par j with _ | p
        · rw [hpj] at h3
          cases h3
        · rw [hpj] at h3
          rcases s with _ | s
          · cases h3
            simp
          · have := (ih p i).mpr ⟨s + 1, by omega, by omega, h3⟩
            simp [this]

/-- Two booleans agreeing as propositions are equal. -/
lemma bool_eq_of_iff {a b : Bool} (h : a = true ↔ b = true) : a = b := by
  cases a <;> cases b <;> simp_all

/-- A filtered sum over an everywhere-false predicate is zero. -/
lemma filtmap_zero (L : List Nat) (T : Nat → ℚ) (p : Nat → Bool)
    (h : ∀ x ∈ L, p x = false) : ((L.filter p).map T).sum = 0 := by
  induction L with
  | nil => rfl
  | cons a L ih =>
    simp only [List.filter_cons]
    rw [h a (by simp)]
    exact ih (fun x hx => h x (by simp [hx]))

/-- Splitting a filtered sum along a disjoint disjunction of
predicates. -/
lemma filtmap_split (L : List Nat) (T : Nat → ℚ) (p q1 q2 : Nat → Bool)
    (hpq : ∀ x ∈ L, (p x = true ↔ (q1 x = true ∨ q2 x = true)))
    (hd : ∀ x ∈ L, ¬(q1 x = true ∧ q2 x = true)) :
    ((L.filter p).map T).sum = ((L.filter q1).map T).sum + ((L.filter q2).map T).sum := by
  induction L with
  | nil => simp
  | cons a L ih =>
    have ih' := ih (fun x hx => hpq x (by simp [hx])) (fun x hx => hd x (by simp [hx]))
    have hpa := hpq a (by simp)
    have hda := hd a (by simp)
    simp only [List.filter_cons]
    by_cases h1 : q1 a = true
    · have h2 : q2 a = false := by
        cases hq2 : q2 a
        · rfl
        · exact absurd ⟨h1, hq2⟩ hda
      have hp : p a = true := hpa.mpr (Or.inl h1)
      rw [if_pos hp, if_pos h1, if_neg (by rw [h2]; exact Bool.false_ne_true)]
      simp only [List.map_cons, List.sum_cons, ih']
      ring
    · rw [Bool.not_eq_true] at h1
      by_cases h2 : q2 a = true
      · have hp : p a = true := hpa.mpr (Or.inr h2)
        rw [if_pos hp, if_pos h2, if_neg (by rw [h1]; exact Bool.false_ne_true)]
        simp only [List.map_cons, List.sum_cons, ih']
        ring
      · rw [Bool.not_eq_true] at h2
        have hp : p a = false := by
          cases hp : p a
          · rfl
          · rcases hpa.mp hp with h | h
            · rw [h1] at h; cases h
            · rw [h2] at h; cases h
        rw [if_neg (by rw [hp]; exact Bool.false_ne_true),
          if_neg (by rw [h1]; exact Bool.false_ne_true),
          if_neg (by rw [h2]; exact Bool.false_ne_true)]
        exact ih'

/-- A one-step parent filter written through `parIter`. -/
lemma filter_parIter_one (n : Nat) (par : Nat → Option Nat) (i : Nat) :
    (List.range n).filter (fun j => parIter par 1 j == some i) =
    (List.range n).filter (fun j => par j == some i) := by
  apply listFilter_congr
  intro j _
  rw [parIter_one]

/-- Sum of a value over the nodes whose ancestor exactly `s` steps up
is `i`. -/
def chainSum (n : Nat) (par : Nat → Option Nat) (T : Nat → ℚ) (s i : Nat) : ℚ :=
  (((List.range n).filter (fun j => parIter par s j == some i)).map T).sum

/-- The depth-`s+1` descendant sum regroups as the child sum of
depth-`s` descendant sums. -/
lemma chainSum_succ (n : Nat) (par : Nat → Option Nat) (T : Nat → ℚ)
    (hbound : ∀ s j i, j < n → parIter par s j = some i → i < n)
    (s i : Nat) :
    chainSum n par T (s + 1) i =
      (((List.range n).filter (fun j => par j == some i)).map
        (fun j => chainSum n par T s j)).sum := by
  have hmem : ∀ k ∈ List.range n,
      ((fun k => parIter par (s + 1) k == some i) k = true ↔
        ∃ j, j ∈ List.range n ∧ (fun j => par j == some i) j = true ∧
          (fun j k => parIter par s k == some j) j k = true) := by
    intro k hk
    rw [List.mem_range] at hk
    simp only [beq_iff_eq]
    constructor
    · intro h
      obtain ⟨j, hj1, hj2⟩ := (parIter_succ_last par s k i).mp h
      exact ⟨j, List.mem_range.mpr (hbound s k j hk hj1), hj2, hj1⟩
    · rintro ⟨j, _, hj2, hj1⟩
      exact (parIter_succ_last par s k i).mpr ⟨j, hj1, hj2⟩
  have huniq : ∀ k ∈ List.range n, ∀ j1, j1 ∈ List.range n →
      (fun j => par j == some i) j1 = true →
      (fun j k => parIter par s k == some j) j1 k = true →
      ∀ j2, j2 ∈ List.range n →
      (fun j => par j == some i) j2 = true →
      (fun j k => parIter par s k == some j) j2 k = true → j1 = j2 := by
    intro k _ j1 _ _ hr1 j2 _ _ hr2
    simp only [beq_iff_eq] at hr1 hr2
    exact Option.some.inj (hr1.symm.trans hr2)
  have key := sum_group_by_parent T (List.range n) (List.nodup_range n)
    (fun j => par j == some i) (fun j k => parIter par s k == some j)
    (fun k => parIter par (s + 1) k == some i) (List.range n) hmem huniq
  unfold chainSum
  rw [key, filtmap (List.range n) (fun j => par j == some i)
    (fun j => (((List.range n).filter
      (fun k => parIter par s k == some j)).map T).sum)]

/-- Core evaluation of the three aggregation passes over an abstract
well-formed forest (levels in 1..4, parents one level up): after the
passes at levels 4, 3, 2 — each adding direct-plus-nested child values
into parents — every node's final accumulator is the plain sum of `T`
over its strict descendants. -/
lemma chain_eval (n : Nat) (lvl : Nat → Nat) (par : Nat → Option Nat)
    (T N4 N3 N2 : Nat → ℚ)
    (hlv : ∀ j, j < n → 1 ≤ lvl j ∧ lvl j ≤ 4)
    (hp1 : ∀ j, j < n → lvl j = 1 → par j = none)
    (hps : ∀ j, j < n → 1 < lvl j → ∃ p, par j = some p ∧ p < n ∧ lvl p + 1 = lvl j)
    (h4 : ∀ i, i < n → N4 i = (((List.range n).filter
        (fun j => lvl j == 4 && par j == some i)).map T).sum)
    (h3 : ∀ i, i < n → N3 i = N4 i + (((List.range n).filter
        (fun j => lvl j == 3 && par j == some i)).map (fun j => T j + N4 j)).sum)
    (h2 : ∀ i, i < n → N2 i = N3 i + (((List.range n).filter
        (fun j => lvl j == 2 && par j == some i)).map (fun j => T j + N3 j)).sum) :
    ∀ i, i < n →
      N2 i = (((List.range n).filter (fun j => pstar par 4 j i)).map T).sum := by
  have hchild : ∀ j, j < n → ∀ i, par j = some i → i < n ∧ lvl j = lvl i + 1 := by
    intro j hj i hpj
    have h1j := (hlv j hj).1
    by_cases hl1 : lvl j = 1
    · rw [hp1 j hj hl1] at hpj
      cases hpj
    · obtain ⟨p, hp, hpn, hpl⟩ := hps j hj (by omega)
      rw [hp] at hpj
      obtain rfl := Option.some.inj hpj
      exact ⟨hpn, by omega⟩
  have hplv : ∀ s j i, j < n → parIter par s j = some i → i < n ∧ lvl j = lvl i + s := by
    intro s
    induction s with
    | zero =>
      intro j i hj h
      unfold parIter at h
      obtain rfl := Option.some.inj h
      exact ⟨hj, by omega⟩
    | succ s ih =>
      intro j i hj h
      unfold parIter at h
      rcases hpj : par j with _ | p
      · rw [hpj] at h
        cases h
      · rw [hpj] at h
        obtain ⟨hpn, hlvj⟩ := hchild j hj p hpj
        obtain ⟨hin, hlvp⟩ := ih p i hpn h
        exact ⟨hin, by omega⟩
  have hbound : ∀ s j i, j < n → parIter par s j = some i → i < n :=
    fun s j i hj h => (hplv s j i hj h).1
  have hemptyF : ∀ (i l : Nat), lvl i + 1 ≠ l → ∀ (g : Nat → ℚ),
      (((List.range n).filter (fun j => lvl j == l && par j == some i)).map g).sum = 0 := by
    intro i l hne g
    apply filtmap_zero
    intro j hj
    rw [List.mem_range] at hj
    show (lvl j == l && par j == some i) = false
    cases hc : lvl j == l && par j == some i
    · rfl
    · exfalso
      simp only [Bool.and_eq_true, beq_iff_eq] at hc
      have := (hchild j hj i hc.2).2
      omega
  have hfullF : ∀ (i l : Nat), lvl i + 1 = l →
      ((List.range n).filter (fun j => lvl j == l && par j == some i)) =
      ((List.range n).filter (fun j => par j == some i)) := by
    intro i l hl
    apply listFilter_congr
    intro j hj
    rw [List.mem_range] at hj
    apply bool_eq_of_iff
    simp only [Bool.and_eq_true, beq_iff_eq]
    constructor
    · exact fun h => h.2
    · intro h
      refine ⟨?_, h⟩
      have := (hchild j hj i h).2
      omega
  have hchildT : ∀ i, (((List.range n).filter (fun j => par j == some i)).map T).sum
      = chainSum n par T 1 i := by
    intro i
    unfold chainSum
    rw [filter_parIter_one]
  have hN4_3 : ∀ i, i < n → lvl i = 3 → N4 i = chainSum n par T 1 i := by
    intro i hi hl
    rw [h4 i hi, hfullF i 4 (by omega)]
    exact hchildT i
  have hN4_z : ∀ i, i < n → lvl i ≠ 3 → N4 i = 0 := by
    intro i hi hl
    rw [h4 i hi]
    exact hemptyF i 4 (by omega) T
  have hN3_3 : ∀ i, i < n → lvl i = 3 → N3 i = chainSum n par T 1 i := by
    intro i hi hl
    rw [h3 i hi, hemptyF i 3 (by omega) (fun j => T j + N4 j), add_zero]
    exact hN4_3 i hi hl
  have hN3_2 : ∀ i, i < n → lvl i = 2 →
      N3 i = chainSum n par T 1 i + chainSum n par T 2 i := by
    intro i hi hl
    rw [h3 i hi, hN4_z i hi (by omega), zero_add, hfullF i 3 (by omega),
      listSum_map_add ((List.range n).filter (fun j => par j == some i)) T N4,
      hchildT i]
    congr 1
    have hs2 : chainSum n par T 2 i =
        (((List.range n).filter (fun j => par j == some i)).map
          (fun j => chainSum n par T 1 j)).sum :=
      chainSum_succ n par T hbound 1 i
    rw [hs2]
    refine congrArg List.sum (listMap_congr _ N4 (fun j => chainSum n par T 1 j) ?_)
    intro j hj
    obtain ⟨hjr, hpj⟩ := List.mem_filter.mp hj
    have hjn := List.mem_range.mp hjr
    have hpj' : par j = some i := beq_iff_eq.mp hpj
    have hlj := (hchild j hjn i hpj').2
    exact hN4_3 j hjn (by omega)
  have hN3_z : ∀ i, i < n → (lvl i = 1 ∨ lvl i = 4) → N3 i = 0 := by
    intro i hi hl
    rw [h3 i hi, hN4_z i hi (by omega), zero_add,
      hemptyF i 3 (by omega) (fun j => T j + N4 j)]
  intro i hi
  have hl14 := hlv i hi
  have hcases : lvl i = 1 ∨ lvl i = 2 ∨ lvl i = 3 ∨ lvl i = 4 := by omega
  rcases hcases with hl | hl | hl | hl
  · -- level 1: descendants at depths 1, 2, 3
    have hL : N2 i = chainSum n par T 1 i + (chainSum n par T 2 i + chainSum n par T 3 i) := by
      rw [h2 i hi, hN3_z i hi (Or.inl hl), zero_add, hfullF i 2 (by omega),
        listSum_map_add ((List.range n).filter (fun j => par j == some i)) T N3,
        hchildT i]
      congr 1
      have e1 : ((List.range n).filter (fun j => par j == some i)).map N3 =
          ((List.range n).filter (fun j => par j == some i)).map
            (fun j => chainSum n par T 1 j + chainSum n par T 2 j) := by
        refine listMap_congr _ N3 _ ?_
        intro j hj
        obtain ⟨hjr, hpj⟩ := List.mem_filter.mp hj
        have hjn := List.mem_range.mp hjr
        have hpj' : par j = some i := beq_iff_eq.mp hpj
        have hlj := (hchild j hjn i hpj').2
        exact hN3_2 j hjn (by omega)
      rw [e1, listSum_map_add ((List.range n).filter (fun j => par j == some i))
        (fun j => chainSum n par T 1 j) (fun j => chainSum n par T 2 j)]
      have hs2 : chainSum n par T 2 i =
          (((List.range n).filter (fun j => par j == some i)).map
            (fun j => chainSum n par T 1 j)).sum :=
        chainSum_succ n par T hbound 1 i
      have hs3 : chainSum n par T 3 i =
          (((List.range n).filter (fun j => par j == some i)).map
            (fun j => chainSum n par T 2 j)).sum :=
        chainSum_succ n par T hbound 2 i
      rw [← hs2, ← hs3]
    have hpq1 : ∀ x ∈ List.range n, (pstar par 4 x i = true ↔
        ((parIter par 1 x == some i) = true ∨
          (parIter par 2 x == some i || parIter par 3 x == some i) = true)) := by
      intro j hj
      rw [List.mem_range] at hj
      simp only [Bool.or_eq_true, beq_iff_eq]
      rw [pstar_iff_parIter]
      constructor
      · rintro ⟨s, hs1, hs2, hs3⟩
        have hlvj := (hplv s j i hj hs3).2
        have hlvj4 := (hlv j hj).2
        have hscases : s = 1 ∨ s = 2 ∨ s = 3 := by omega
        rcases hscases with rfl | rfl | rfl
        · exact Or.inl hs3
        · exact Or.inr (Or.inl hs3)
        · exact Or.inr (Or.inr hs3)
      · rintro (h | h | h)
        · exact ⟨1, by omega, by omega, h⟩
        · exact ⟨2, by omega, by omega, h⟩
        · exact ⟨3, by omega, by omega, h⟩
    have hd1 : ∀ x ∈ List.range n, ¬((parIter par 1 x == some i) = true ∧
        (parIter par 2 x == some i || parIter par 3 x == some i) = true) := by
      intro j hj
      rw [List.mem_range] at hj
      rintro ⟨ha, hb⟩
      simp only [Bool.or_eq_true, beq_iff_eq] at ha hb
      have h1 := (hplv 1 j i hj ha).2
      rcases hb with hb | hb
      · have h2 := (hplv 2 j i hj hb).2
        omega
      · have h2 := (hplv 3 j i hj hb).2
        omega
    have hpq2 : ∀ x ∈ List.range n,
        ((parIter par 2 x == some i || parIter par 3 x == some i) = true ↔
          ((parIter par 2 x == some i) = true ∨ (parIter par 3 x == some i) = true)) := by
      intro j _
      exact iff_of_eq (Bool.or_eq_true _ _)
    have hd2 : ∀ x ∈ List.range n, ¬((parIter par 2 x == some i) = true ∧
        (parIter par 3 x == some i) = true) := by
      intro j hj
      rw [List.mem_range] at hj
      rintro ⟨ha, hb⟩
      simp only [beq_iff_eq] at ha hb
      have h2 := (hplv 2 j i hj ha).2
      have h3 := (hplv 3 j i hj hb).2
      omega
    have hsplit1 := filtmap_split (List.range n) T (fun j => pstar par 4 j i)
      (fun j => parIter par 1 j == some i)
      (fun j => parIter par 2 j == some i || parIter par 3 j == some i) hpq1 hd1
    have hsplit2 := filtmap_split (List.range n) T
      (fun j => parIter par 2 j == some i || parIter par 3 j == some i)
      (fun j => parIter par 2 j == some i) (fun j => parIter par 3 j == some i) hpq2 hd2
    rw [hL, hsplit1, hsplit2]
    rfl
  · -- level 2: descendants at depths 1, 2
    have hL : N2 i = chainSum n par T 1 i + chainSum n par T 2 i := by
      rw [h2 i hi, hN3_2 i hi hl, hemptyF i 2 (by omega) (fun j => T j + N3 j), add_zero]
    have hpq1 : ∀ x ∈ List.range n, (pstar par 4 x i = true ↔
        ((parIter par 1 x == some i) = true ∨ (parIter par 2 x == some i) = true)) := by
      intro j hj
      rw [List.mem_range] at hj
      simp only [beq_iff_eq]
      rw [pstar_iff_parIter]
      constructor
      · rintro ⟨s, hs1, hs2, hs3⟩
        have hlvj := (hplv s j i hj hs3).2
        have hlvj4 := (hlv j hj).2
        have hscases : s = 1 ∨ s = 2 := by omega
        rcases hscases with rfl | rfl
        · exact Or.inl hs3
        · exact Or.inr hs3
      · rintro (h | h)
        · exact ⟨1, by omega, by omega, h⟩
        · exact ⟨2, by omega, by omega, h⟩
    have hd1 : ∀ x ∈ List.range n, ¬((parIter par 1 x == some i) = true ∧
        (parIter par 2 x == some i) = true) := by
      intro j hj
      rw [List.mem_range] at hj
      rintro ⟨ha, hb⟩
      simp only [beq_iff_eq] at ha hb
      have h1 := (hplv 1 j i hj ha).2
      have h2 := (hplv 2 j i hj hb).2
      omega
    have hsplit1 := filtmap_split (List.range n) T (fun j => pstar par 4 j i)
      (fun j => parIter par 1 j == some i) (fun j => parIter par 2 j == some i) hpq1 hd1
    rw [hL, hsplit1]
    rfl
  · -- level 3: only direct children (depth 1)
    have hL : N2 i = chainSum n par T 1 i := by
      rw [h2 i hi, hemptyF i 2 (by omega) (fun j => T j + N3 j), add_zero]
      exact hN3_3 i hi hl
    have hfe : (List.range n).filter (fun j => pstar par 4 j i) =
        (List.range n).filter (fun j => parIter par 1 j == some i) := by
      apply listFilter_congr
      intro j hj
      rw [List.mem_range] at hj
      apply bool_eq_of_iff
      rw [beq_iff_eq, pstar_iff_parIter]
      constructor
      · rintro ⟨s, hs1, hs2, hs3⟩
        have hlvj := (hplv s j i hj hs3).2
        have hlvj4 := (hlv j hj).2
        have hs : s = 1 := by omega
        subst hs
        exact hs3
      · intro h
        exact ⟨1, by omega, by omega, h⟩
    rw [hL, hfe]
    rfl
  · -- level 4: no descendants
    have hL : N2 i = 0 := by
      rw [h2 i hi, hN3_z i hi (Or.inr hl), zero_add,
        hemptyF i 2 (by omega) (fun j => T j + N3 j)]
    have hRz : (((List.range n).filter (fun j => pstar par 4 j i)).map T).sum = 0 := by
      apply filtmap_zero
      intro j hj
      rw [List.mem_range] at hj
      show pstar par 4 j i = false
      cases hc : pstar par 4 j i
      · rfl
      · exfalso
        obtain ⟨s, hs1, hs2, hs3⟩ := (pstar_iff_parIter par 4 j i).mp hc
        have h1 := (hplv s j i hj hs3).2
        have h2 := (hlv j hj).2
        omega
    rw [hL, hRz]

/-- In a well-formed registry, a parent pointer goes to an in-range
node exactly one level up. -/
lemma wf_child (cats : List CatCode) (hwf : WFCats cats) (j : Nat) (hj : j < cats.length)
    (i : Nat) (hpj : parOf cats j = some i) :
    i < cats.length ∧ (catAt cats j).level = (catAt cats i).level + 1 := by
  have hu := wf_unpack cats hwf j hj
  by_cases hl1 : (catAt cats j).level = 1
  · rw [show parOf cats j = (catAt cats j).parent from rfl, hu.2.2.1 hl1] at hpj
    cases hpj
  · obtain ⟨p, hp, hpn, hpl⟩ := hu.2.2.2 (by omega)
    rw [show parOf cats j = (catAt cats j).parent from rfl, hp] at hpj
    obtain rfl := Option.some.inj hpj
    exact ⟨hpn, by omega⟩

/-- In a well-formed registry, following `s` parent steps raises the
level by exactly `s` and stays in range. -/
lemma wf_parIter_level (cats : List CatCode) (hwf : WFCats cats) :
    ∀ s j i, j < cats.length → parIter (parOf cats) s j = some i →
      i < cats.length ∧ (catAt cats j).level = (catAt cats i).level + s := by
  intro s
  induction s with
  | zero =>
    intro j i hj h
    unfold parIter at h
    obtain rfl := Option.some.inj h
    exact ⟨hj, by omega⟩
  | succ s ih =>
    intro j i hj h
    unfold parIter at h
    rcases hpj : parOf cats j with _ | p
    · rw [hpj] at h
      cases h
    · rw [hpj] at h
      obtain ⟨hpn, hlvj⟩ := wf_child cats hwf j hj p hpj
      obtain ⟨hin, hlvp⟩ := ih p i hpn h
      exact ⟨hin, by omega⟩

/-- A strict descendant lies strictly below its ancestor's level (and
the ancestor is in range). -/
lemma strictDesc_level (cats : List CatCode) (hwf : WFCats cats) (j i : Nat)
    (hj : j < cats.length) (hd : strictDesc cats j i = true) :
    i < cats.length ∧ (catAt cats i).level < (catAt cats j).level := by
  obtain ⟨s, hs1, _, hs3⟩ := (pstar_iff_parIter (parOf cats) 4 j i).mp hd
  obtain ⟨hin, hlv⟩ := wf_parIter_level cats hwf s j i hj hs3
  exact ⟨hin, by omega⟩

/-- Evaluation of the whole aggregation pass on a well-formed registry
whose nested accumulators start at zero: every node ends with the sum
of the direct totals (and direct monthly values) of its strict
descendants. -/
lemma aggregate_nested_eval (cats : List CatCode) (hwf : WFCats cats)
    (hz : ZeroNested cats) :
    ∀ i, i < cats.length →
      ((catAt (aggregate cats) i).nested_total =
        (((List.range cats.length).filter (fun j => strictDesc cats j i)).map
          (fun j => (catAt cats j).total)).sum) ∧
      (∀ m, (catAt (aggregate cats) i).nested_monthly m =
        (((List.range cats.length).filter (fun j => strictDesc cats j i)).map
          (fun j => (catAt cats j).monthly m)).sum) := by
  have hwfu := wf_unpack cats hwf
  have hlen4 : (aggLevel 4 cats).length = cats.length := (aggLevel_frame 4 cats).1
  have hsk4 : ∀ j, skel (catAt (aggLevel 4 cats) j) = skel (catAt cats j) :=
    (aggLevel_frame 4 cats).2
  have hsk3 : ∀ j, skel (catAt (aggLevel 3 (aggLevel 4 cats)) j) = skel (catAt cats j) :=
    fun j => ((aggLevel_frame 3 (aggLevel 4 cats)).2 j).trans (hsk4 j)
  have hlen3 : (aggLevel 3 (aggLevel 4 cats)).length = cats.length := by
    rw [(aggLevel_frame 3 (aggLevel 4 cats)).1, hlen4]
  have hlv4 : ∀ j, (catAt (aggLevel 4 cats) j).level = (catAt cats j).level :=
    fun j => (skel_fields (hsk4 j)).2.2.2.1
  have hpar4 : ∀ j, (catAt (aggLevel 4 cats) j).parent = (catAt cats j).parent :=
    fun j => (skel_fields (hsk4 j)).2.2.2.2.2.1
  have htot4 : ∀ j, (catAt (aggLevel 4 cats) j).total = (catAt cats j).total :=
    fun j => (skel_fields (hsk4 j)).2.2.2.2.2.2.2.1
  have hmon4 : ∀ j, (catAt (aggLevel 4 cats) j).monthly = (catAt cats j).monthly :=
    fun j => (skel_fields (hsk4 j)).2.2.2.2.2.2.2.2.1
  have hlv3 : ∀ j, (catAt (aggLevel 3 (aggLevel 4 cats)) j).level = (catAt cats j).level :=
    fun j => (skel_fields (hsk3 j)).2.2.2.1
  have hpar3 : ∀ j, (catAt (aggLevel 3 (aggLevel 4 cats)) j).parent = (catAt cats j).parent :=
    fun j => (skel_fields (hsk3 j)).2.2.2.2.2.1
  have htot3 : ∀ j, (catAt (aggLevel 3 (aggLevel 4 cats)) j).total = (catAt cats j).total :=
    fun j => (skel_fields (hsk3 j)).2.2.2.2.2.2.2.1
  have hmon3 : ∀ j, (catAt (aggLevel 3 (aggLevel 4 cats)) j).monthly = (catAt cats j).monthly :=
    fun j => (skel_fields (hsk3 j)).2.2.2.2.2.2.2.2.1
  have hside : ∀ l, 1 < l → ∀ j, j < cats.length → (catAt cats j).level = l →
      ∃ p, (catAt cats j).parent = some p ∧ p < cats.length ∧
        (catAt cats p).level + 1 = l := by
    intro l hl j hj hlev
    obtain ⟨p, hp1, hp2, hp3⟩ := (hwfu j hj).2.2.2 (by omega)
    exact ⟨p, hp1, hp2, by omega⟩
  have hside4 : ∀ j, j < (aggLevel 4 cats).length →
      (catAt (aggLevel 4 cats) j).level = 3 →
      ∃ p, (catAt (aggLevel 4 cats) j).parent = some p ∧ p < (aggLevel 4 cats).length ∧
        (catAt (aggLevel 4 cats) p).level + 1 = 3 := by
    intro j hj hlev
    rw [hlen4] at hj
    rw [hlv4 j] at hlev
    obtain ⟨p, hp1, hp2, hp3⟩ := hside 3 (by omega) j hj hlev
    exact ⟨p, by rw [hpar4 j]; exact hp1, by rw [hlen4]; exact hp2,
      by rw [hlv4 p]; exact hp3⟩
  have hside3 : ∀ j, j < (aggLevel 3 (aggLevel 4 cats)).length →
      (catAt (aggLevel 3 (aggLevel 4 cats)) j).level = 2 →
      ∃ p, (catAt (aggLevel 3 (aggLevel 4 cats)) j).parent = some p ∧
        p < (aggLevel 3 (aggLevel 4 cats)).length ∧
        (catAt (aggLevel 3 (aggLevel 4 cats)) p).level + 1 = 2 := by
    intro j hj hlev
    rw [hlen3] at hj
    rw [hlv3 j] at hlev
    obtain ⟨p, hp1, hp2, hp3⟩ := hside 2 (by omega) j hj hlev
    exact ⟨p, by rw [hpar3 j]; exact hp1, by rw [hlen3]; exact hp2,
      by rw [hlv3 p]; exact hp3⟩
  have hF4 := foldl_aggIdx_nested 4 (List.range cats.length) cats
    (fun c hc => List.mem_range.mp hc) (hside 4 (by omega))
  have hF3 := foldl_aggIdx_nested 3 (List.range (aggLevel 4 cats).length)
    (aggLevel 4 cats) (fun c hc => List.mem_range.mp hc) hside4
  have hF2 := foldl_aggIdx_nested 2 (List.range (aggLevel 3 (aggLevel 4 cats)).length)
    (aggLevel 3 (aggLevel 4 cats)) (fun c hc => List.mem_range.mp hc) hside3
  have hH4t : ∀ i, i < cats.length → (catAt (aggLevel 4 cats) i).nested_total =
      (((List.range cats.length).filter (fun j => (catAt cats j).level == 4 &&
        (catAt cats j).parent == some i)).map (fun j => (catAt cats j).total)).sum := by
    intro i hi
    have h := (hF4 i hi).1
    rw [(hz i hi).1, zero_add] at h
    show (catAt ((List.range cats.length).foldl (aggIdx 4) cats) i).nested_total = _
    rw [h]
    refine congrArg List.sum (listMap_congr _ _ _ ?_)
    intro j hj
    obtain ⟨hjr, _⟩ := List.mem_filter.mp hj
    have hjn := List.mem_range.mp hjr
    rw [(hz j hjn).1, add_zero]
  have hH4m : ∀ i, i < cats.length → ∀ m, (catAt (aggLevel 4 cats) i).nested_monthly m =
      (((List.range cats.length).filter (fun j => (catAt cats j).level == 4 &&
        (catAt cats j).parent == some i)).map (fun j => (catAt cats j).monthly m)).sum := by
    intro i hi m
    have h := (hF4 i hi).2 m
    rw [(hz i hi).2 m, zero_add] at h
    show (catAt ((List.range cats.length).foldl (aggIdx 4) cats) i).nested_monthly m = _
    rw [h]
    refine congrArg List.sum (listMap_congr _ _ _ ?_)
    intro j hj
    obtain ⟨hjr, _⟩ := List.mem_filter.mp hj
    have hjn := List.mem_range.mp hjr
    rw [(hz j hjn).2 m, add_zero]
  have hH3t : ∀ i, i < cats.length →
      (catAt (aggLevel 3 (aggLevel 4 cats)) i).nested_total =
      (catAt (aggLevel 4 cats) i).nested_total +
      (((List.range cats.length).filter (fun j => (catAt cats j).level == 3 &&
        (catAt cats j).parent == some i)).map
        (fun j => (catAt cats j).total + (catAt (aggLevel 4 cats) j).nested_total)).sum := by
    intro i hi
    have h := (hF3 i (by rw [hlen4]; exact hi)).1
    show (catAt ((List.range (aggLevel 4 cats).length).foldl (aggIdx 3)
      (aggLevel 4 cats)) i).nested_total = _
    rw [h]
    congr 1
    rw [hlen4,
      listFilter_congr (List.range cats.length) _
        (fun j => (catAt cats j).level == 3 && (catAt cats j).parent == some i)
        (fun j _ => by rw [hlv4 j, hpar4 j])]
    refine congrArg List.sum (listMap_congr _ _ _ ?_)
    intro j _
    rw [htot4 j]
  have hH3m : ∀ i, i < cats.length → ∀ m,
      (catAt (aggLevel 3 (aggLevel 4 cats)) i).nested_monthly m =
      (catAt (aggLevel 4 cats) i).nested_monthly m +
      (((List.range cats.length).filter (fun j => (catAt cats j).level == 3 &&
        (catAt cats j).parent == some i)).map
        (fun j => (catAt cats j).monthly m +
          (catAt (aggLevel 4 cats) j).nested_monthly m)).sum := by
    intro i hi m
    have h := (hF3 i (by rw [hlen4]; exact hi)).2 m
    show (catAt ((List.range (aggLevel 4 cats).length).foldl (aggIdx 3)
      (aggLevel 4 cats)) i).nested_monthly m = _
    rw [h]
    congr 1
    rw [hlen4,
      listFilter_congr (List.range cats.length) _
        (fun j => (catAt cats j).level == 3 && (catAt cats j).parent == some i)
        (fun j _ => by rw [hlv4 j, hpar4 j])]
    refine congrArg List.sum (listMap_congr _ _ _ ?_)
    intro j _
    rw [show (catAt (aggLevel 4 cats) j).monthly = (catAt cats j).monthly from hmon4 j]
  have hH2t : ∀ i, i < cats.length →
      (catAt (aggregate cats) i).nested_total =
      (catAt (aggLevel 3 (aggLevel 4 cats)) i).nested_total +
      (((List.range cats.length).filter (fun j => (catAt cats j).level == 2 &&
        (catAt cats j).parent == some i)).map
        (fun j => (catAt cats j).total +
          (catAt (aggLevel 3 (aggLevel 4 cats)) j).nested_total)).sum := by
    intro i hi
    have h := (hF2 i (by rw [hlen3]; exact hi)).1
    show (catAt ((List.range (aggLevel 3 (aggLevel 4 cats)).length).foldl (aggIdx 2)
      (aggLevel 3 (aggLevel 4 cats))) i).nested_total = _
    rw [h]
    congr 1
    rw [hlen3,
      listFilter_congr (List.range cats.length) _
        (fun j => (catAt cats j).level == 2 && (catAt cats j).parent == some i)
        (fun j _ => by rw [hlv3 j, hpar3 j])]
    refine congrArg List.sum (listMap_congr _ _ _ ?_)
    intro j _
    rw [htot3 j]
  have hH2m : ∀ i, i < cats.length → ∀ m,
      (catAt (aggregate cats) i).nested_monthly m =
      (catAt (aggLevel 3 (aggLevel 4 cats)) i).nested_monthly m +
      (((List.range cats.length).filter (fun j => (catAt cats j).level == 2 &&
        (catAt cats j).parent == some i)).map
        (fun j => (catAt cats j).monthly m +
          (catAt (aggLevel 3 (aggLevel 4 cats)) j).nested_monthly m)).sum := by
    intro i hi m
    have h := (hF2 i (by rw [hlen3]; exact hi)).2 m
    show (catAt ((List.range (aggLevel 3 (aggLevel 4 cats)).length).foldl (aggIdx 2)
      (aggLevel 3 (aggLevel 4 cats))) i).nested_monthly m = _
    rw [h]
    congr 1
    rw [hlen3,
      listFilter_congr (List.range cats.length) _
        (fun j => (catAt cats j).level == 2 && (catAt cats j).parent == some i)
        (fun j _ => by rw [hlv3 j, hpar3 j])]
    refine congrArg List.sum (listMap_congr _ _ _ ?_)
    intro j _
    rw [show (catAt (aggLevel 3 (aggLevel 4 cats)) j).monthly = (catAt cats j).monthly
      from hmon3 j]
  have hlvOK : ∀ j, j < cats.length →
      1 ≤ (catAt cats j).level ∧ (catAt cats j).level ≤ 4 :=
    fun j hj => ⟨(hwfu j hj).1, (hwfu j hj).2.1⟩
  have hp1OK : ∀ j, j < cats.length → (catAt cats j).level = 1 → parOf cats j = none :=
    fun j hj h => (hwfu j hj).2.2.1 h
  have hpsOK : ∀ j, j < cats.length → 1 < (catAt cats j).level →
      ∃ p, parOf cats j = some p ∧ p < cats.length ∧
        (catAt cats p).level + 1 = (catAt cats j).level :=
    fun j hj h => (hwfu j hj).2.2.2 h
  intro i hi
  constructor
  · exact chain_eval cats.length (fun j => (catAt cats j).level) (parOf cats)
      (fun j => (catAt cats j).total)
      (fun j => (catAt (aggLevel 4 cats) j).nested_total)
      (fun j => (catAt (aggLevel 3 (aggLevel 4 cats)) j).nested_total)
      (fun j => (catAt (aggregate cats) j).nested_total)
      hlvOK hp1OK hpsOK hH4t hH3t hH2t i hi
  · intro m
    exact chain_eval cats.length (fun j => (catAt cats j).level) (parOf cats)
      (fun j => (catAt cats j).monthly m)
      (fun j => (catAt (aggLevel 4 cats) j).nested_monthly m)
      (fun j => (catAt (aggLevel 3 (aggLevel 4 cats)) j).nested_monthly m)
      (fun j => (catAt (aggregate cats) j).nested_monthly m)
      hlvOK hp1OK hpsOK (fun i hi => hH4m i hi m) (fun i hi => hH3m i hi m)
      (fun i hi => hH2m i hi m) i hi

/-- One transaction update touches only the direct accumulators: the
nested fields of every node are unchanged. -/
lemma journalUpdate_nested (cats : List CatCode) (cat_idx : Nat) (jamt : ℚ)
    (jdate jdescr : List Char) (js_len : Nat) :
    (journalUpdate cats cat_idx jamt jdate jdescr js_len).length = cats.length ∧
    ∀ j, (catAt (journalUpdate cats cat_idx jamt jdate jdescr js_len) j).nested_total =
        (catAt cats j).nested_total ∧
      (catAt (journalUpdate cats cat_idx jamt jdate jdescr js_len) j).nested_monthly =
        (catAt cats j).nested_monthly := by
  unfold journalUpdate
  split
  · exact ⟨rfl, fun j => ⟨rfl, rfl⟩⟩
  · rename_i cc hg
    constructor
    · simp
    · intro j
      rw [catAt_set]
      by_cases hc : cat_idx = j ∧ cat_idx < cats.length
      · rw [if_pos hc]
        obtain ⟨rfl, hlt⟩ := hc
        rw [get?_eq_catAt cats cat_idx hlt] at hg
        have hcc := Option.some.inj hg
        rw [hcc]
        exact ⟨rfl, rfl⟩
      · rw [if_neg hc]
        exact ⟨rfl, rfl⟩

/-- The whole journal-loading loop leaves every node's nested
accumulators unchanged. -/
lemma readJournalLines_nested (year : Nat) :
    ∀ (ls : List (List Char)) (ln : Nat) (cats : List CatCode) (js : List Journal)
      (cats' : List CatCode) (js' : List Journal),
      readJournalLines year ls ln cats js = .ok (cats', js') →
      ∀ i, (catAt cats' i).nested_total = (catAt cats i).nested_total ∧
        (catAt cats' i).nested_monthly = (catAt cats i).nested_monthly := by
  intro ls
  induction ls with
  | nil =>
    intro ln cats js cats' js' h i
    unfold readJournalLines at h
    split at h
    · cases h
    · have hp := Except.ok.inj h
      have h1 : cats = cats' := congrArg Prod.fst hp
      subst h1
      exact ⟨rfl, rfl⟩
  | cons l ls ih =>
    intro ln cats js cats' js' h i
    unfold readJournalLines at h
    split at h
    · cases h
    · exact ih (ln + 1) cats js cats' js' h i
    · rename_i jdate jdescr jamt jtype jcat hpl
      split at h
      · cases h
      · rename_i cat_idx hlk
        have hrec := ih (ln + 1)
          (journalUpdate cats cat_idx jamt jdate jdescr js.length)
          (js ++ [⟨jdate, jdescr, jamt, jtype, jcat, cat_idx, ln⟩]) cats' js' h i
        have hstep := (journalUpdate_nested cats cat_idx jamt jdate jdescr js.length).2 i
        exact ⟨hrec.1.trans hstep.1, hrec.2.trans hstep.2⟩

/-- **C1.** After the aggregation pass (fold over levels 4, 3, 2) on a
well-formed registry whose nested accumulators start at zero, every
node's `nested_total` equals the sum of the direct `total` of every
strict descendant of that node (at any depth), and each
`nested_monthly m` equals the sum of the direct `monthly m` over the
same strict descendants, exactly and independently per month. -/
theorem C1_aggregation_invariant (cats : List CatCode) (hwf : WFCats cats)
    (hz : ZeroNested cats) (i : Nat) (hi : i < cats.length) :
    (catAt (aggregate cats) i).nested_total =
      (((List.range cats.length).filter (fun j => strictDesc cats j i)).map
        (fun j => (catAt cats j).total)).sum ∧
    ∀ m, (catAt (aggregate cats) i).nested_monthly m =
      (((List.range cats.length).filter (fun j => strictDesc cats j i)).map
        (fun j => (catAt cats j).monthly m)).sum :=
  aggregate_nested_eval cats hwf hz i hi

/-- Witness for C1 on the end-to-end scenario registry. -/
theorem C1_aggregation_invariant_witness :
    WFCats scenarioCats ∧ ZeroNested scenarioCats ∧ 0 < scenarioCats.length ∧
    ((catAt (aggregate scenarioCats) 0).nested_total =
      (((List.range scenarioCats.length).filter (fun j => strictDesc scenarioCats j 0)).map
        (fun j => (catAt scenarioCats j).total)).sum ∧
     ∀ m, (catAt (aggregate scenarioCats) 0).nested_monthly m =
      (((List.range scenarioCats.length).filter (fun j => strictDesc scenarioCats j 0)).map
        (fun j => (catAt scenarioCats j).monthly m)).sum) :=
  ⟨of_decide_eq_true (by with_unfolding_all rfl),
   of_decide_eq_true (by with_unfolding_all rfl),
   of_decide_eq_true (by with_unfolding_all rfl),
   C1_aggregation_invariant scenarioCats
     (of_decide_eq_true (by with_unfolding_all rfl))
     (of_decide_eq_true (by with_unfolding_all rfl))
     0 (of_decide_eq_true (by with_unfolding_all rfl))⟩

/-- A four-level registry (1, 1.1, 1.1.1, 1.1.1.1) with no
transactions loaded. -/
def deepCats : List CatCode :=
  match loadCatFile ["1 A\n".toList, "1.1 B\n".toList, "1.1.1 C\n".toList,
      "1.1.1.1 D\n".toList] with
  | .error _ => []
  | .ok cs => cs

/-- **C10.** Level-4 nodes are never the target of any aggregation
fold (no node has level above 4, so nothing points to them as a
parent of the folded level), hence on a well-formed registry whose
nested accumulators start at zero, a level-4 node's `nested_total`
and every `nested_monthly m` are exactly zero after aggregation. -/
theorem C10_level4_nested_zero (cats : List CatCode) (hwf : WFCats cats)
    (hz : ZeroNested cats) (i : Nat) (hi : i < cats.length)
    (hl4 : (catAt cats i).level = 4) :
    (catAt (aggregate cats) i).nested_total = 0 ∧
    ∀ m, (catAt (aggregate cats) i).nested_monthly m = 0 := by
  obtain ⟨ht, hm⟩ := aggregate_nested_eval cats hwf hz i hi
  have hfe : ∀ j ∈ List.range cats.length, (fun j => strictDesc cats j i) j = false := by
    intro j hjr
    have hjn := List.mem_range.mp hjr
    show strictDesc cats j i = false
    cases hc : strictDesc cats j i
    · rfl
    · exfalso
      have h1 := (strictDesc_level cats hwf j i hjn hc).2
      have h2 := (wf_unpack cats hwf j hjn).2.1
      omega
  constructor
  · rw [ht]
    exact filtmap_zero _ _ _ hfe
  · intro m
    rw [hm m]
    exact filtmap_zero _ _ _ hfe

/-- Witness for C10 on a four-level registry. -/
theorem C10_level4_nested_zero_witness :
    WFCats deepCats ∧ ZeroNested deepCats ∧ 3 < deepCats.length ∧
    (catAt deepCats 3).level = 4 ∧
    ((catAt (aggregate deepCats) 3).nested_total = 0 ∧
     ∀ m, (catAt (aggregate deepCats) 3).nested_monthly m = 0) :=
  ⟨of_decide_eq_true (by with_unfolding_all rfl),
   of_decide_eq_true (by with_unfolding_all rfl),
   of_decide_eq_true (by with_unfolding_all rfl),
   of_decide_eq_true (by with_unfolding_all rfl),
   C10_level4_nested_zero deepCats
     (of_decide_eq_true (by with_unfolding_all rfl))
     (of_decide_eq_true (by with_unfolding_all rfl))
     3 (of_decide_eq_true (by with_unfolding_all rfl))
     (of_decide_eq_true (by with_unfolding_all rfl))⟩

/-- **C9.** Accumulator lifecycle: every node is created with all four
accumulator fields (`total`, `nested_total`, `monthly`,
`nested_monthly`) at zero; journal loading leaves the nested fields of
every node unchanged (it only touches direct fields); and the
aggregation pass leaves the direct fields `total` and `monthly` of
every node unchanged (it only touches nested fields). -/
theorem C9_accumulator_lifecycle :
    (∀ (code descr comment : List Char) (level line : Nat),
      (CatCode.init code descr comment level line).total = 0 ∧
      (CatCode.init code descr comment level line).nested_total = 0 ∧
      (∀ m, (CatCode.init code descr comment level line).monthly m = 0) ∧
      (∀ m, (CatCode.init code descr comment level line).nested_monthly m = 0)) ∧
    (∀ (lines : List (List Char)) (year : Nat) (cats cats' : List CatCode)
        (js' : List Journal),
      read_and_parse_journal_file lines year cats = .ok (cats', js') →
      ∀ i, (catAt cats' i).nested_total = (catAt cats i).nested_total ∧
        ∀ m, (catAt cats' i).nested_monthly m = (catAt cats i).nested_monthly m) ∧
    (∀ (cats : List CatCode) (i : Nat),
      (catAt (aggregate cats) i).total = (catAt cats i).total ∧
      ∀ m, (catAt (aggregate cats) i).monthly m = (catAt cats i).monthly m) := by
  refine ⟨?_, ?_, ?_⟩
  · intro code descr comment level line
    exact ⟨rfl, rfl, fun m => rfl, fun m => rfl⟩
  · intro lines year cats cats' js' h i
    have hf := readJournalLines_nested year lines 1 cats [] cats' js' h i
    exact ⟨hf.1, fun m => by rw [hf.2]⟩
  · intro cats i
    have hf := skel_fields ((aggregate_frame cats).2 i)
    exact ⟨hf.2.2.2.2.2.2.2.1, fun m => by rw [hf.2.2.2.2.2.2.2.2.1]⟩

/-- The scenario registry after the hierarchy pass, before journal
loading. -/
def scenarioHierCats : List CatCode :=
  match loadCatFile
      ["1 Income\n".toList, "1.1 Salary\n".toList,
       "2 Expenses\n".toList, "2.1 Housing\n".toList] with
  | .error _ => []
  | .ok cats => cats

/-- The scenario journal lines. -/
def scenarioJLines : List (List Char) :=
  ["3/9, Paycheck, 1000.00, dep, 1.1\n".toList,
   "3/10, Rent, 800.00, chk, 2.1\n".toList]

/-- The scenario transactions as loaded. -/
def scenarioJournal : List Journal :=
  match read_and_parse_journal_file scenarioJLines 2015 scenarioHierCats with
  | .error _ => []
  | .ok (_, js) => js

/-- Witness for C9: the scenario journal load succeeds, leaves the
nested fields of node 1 unchanged, and aggregation leaves its direct
fields unchanged. -/
theorem C9_accumulator_lifecycle_witness :
    read_and_parse_journal_file scenarioJLines 2015 scenarioHierCats =
      .ok (scenarioCats, scenarioJournal) ∧
    ((catAt scenarioCats 1).nested_total = (catAt scenarioHierCats 1).nested_total ∧
      ∀ m, (catAt scenarioCats 1).nested_monthly m =
        (catAt scenarioHierCats 1).nested_monthly m) ∧
    ((catAt (aggregate scenarioCats) 1).total = (catAt scenarioCats 1).total ∧
      ∀ m, (catAt (aggregate scenarioCats) 1).monthly m =
        (catAt scenarioCats 1).monthly m) :=
  ⟨by with_unfolding_all rfl,
   C9_accumulator_lifecycle.2.1 scenarioJLines 2015 scenarioHierCats scenarioCats
     scenarioJournal (by with_unfolding_all rfl) 1,
   C9_accumulator_lifecycle.2.2 scenarioCats 1⟩
